import Mathlib

/-!
Shallow embedding of the Hume values-checking scripts
(`Hume_ValuesCheckingScript_V3.py`, together with the attribute-capping
loop of `Hume_ValuesCheckingScript_V2008.py`), and proofs about the
aggregation, formatting and orchestration behaviour.

Python dictionaries are modelled as association lists with insertion-order
semantics: assigning to an existing key replaces the value in place, a new
key is appended at the end.  Exceptions are modelled with `Option` results
(or pairs carrying an `errorLogged` flag), mirroring the `try ... except`
blocks of the source: a `none` produced inside a loop makes the enclosing
handler keep the state built so far and record that an error was logged.
-/

namespace Hume

variable {K B : Type} [DecidableEq K]

/-- First-match lookup in an association list (Python `d[k]` read, as `Option`). -/
def alookup : List (K × B) → K → Option B
  | [], _ => none
  | (k, v) :: rest, key => if k = key then some v else alookup rest key

/-- Python `d[k] = v`: replace the value in place if the key exists
(keeping its position), else append the new pair at the end. -/
def pyInsert : List (K × B) → K → B → List (K × B)
  | [], key, v => [(key, v)]
  | (k, w) :: rest, key, v =>
      if k = key then (k, v) :: rest else (k, w) :: pyInsert rest key v

/-- Update the value at a key with a fallible function; `none` when the key
is absent (Python `KeyError`) or when the inner update raises. -/
def aupdateO : List (K × B) → K → (B → Option B) → Option (List (K × B))
  | [], _, _ => none
  | (k, v) :: rest, key, g =>
      if k = key then (g v).map (fun v' => (k, v') :: rest)
      else (aupdateO rest key g).map (fun l => (k, v) :: l)

theorem alookup_pyInsert_self (l : List (K × B)) (k : K) (v : B) :
    alookup (pyInsert l k v) k = some v := by
  induction l with
  | nil => simp [pyInsert, alookup]
  | cons p rest ih =>
      obtain ⟨k', w⟩ := p
      by_cases h : k' = k
      · simp [pyInsert, h, alookup]
      · simp [pyInsert, h, alookup, ih]

theorem alookup_pyInsert_other (l : List (K × B)) (k k' : K) (v : B) (h : k' ≠ k) :
    alookup (pyInsert l k v) k' = alookup l k' := by
  have hne : ¬ k = k' := fun hk => h hk.symm
  induction l with
  | nil => simp [pyInsert, alookup, hne]
  | cons p rest ih =>
      obtain ⟨k₀, w⟩ := p
      by_cases hk : k₀ = k
      · subst hk
        simp [pyInsert, alookup, hne]
      · simp [pyInsert, hk, alookup, ih]

theorem keysOf_pyInsert (l : List (K × B)) (k : K) (v : B) :
    (pyInsert l k v).map Prod.fst =
      if k ∈ l.map Prod.fst then l.map Prod.fst else l.map Prod.fst ++ [k] := by
  induction l with
  | nil => simp [pyInsert]
  | cons p rest ih =>
      obtain ⟨k₀, w⟩ := p
      by_cases hk : k₀ = k
      · subst hk
        simp [pyInsert]
      · have hne : ¬ k = k₀ := fun h => hk h.symm
        by_cases hmem : k ∈ rest.map Prod.fst
        · simp [pyInsert, hk, ih, hmem, hne]
        · simp [pyInsert, hk, ih, hmem, hne]

/-- Structural description of a successful `aupdateO`: exactly the first
occurrence of the key has its value rewritten by `g`. -/
theorem aupdateO_some_spec {l : List (K × B)} {key : K} {g : B → Option B} {l' : List (K × B)}
    (h : aupdateO l key g = some l') :
    ∃ pre v v' post, l = pre ++ (key, v) :: post ∧ l' = pre ++ (key, v') :: post ∧
      g v = some v' ∧ key ∉ pre.map Prod.fst := by
  induction l generalizing l' with
  | nil => cases h
  | cons p rest ih =>
      obtain ⟨k, v₀⟩ := p
      by_cases hk : k = key
      · subst hk
        simp only [aupdateO, if_pos rfl] at h
        obtain ⟨v', hv', rfl⟩ := Option.map_eq_some'.mp h
        exact ⟨[], v₀, v', rest, by simp, by simp, hv', by simp⟩
      · simp only [aupdateO, if_neg hk] at h
        obtain ⟨m, hm, rfl⟩ := Option.map_eq_some'.mp h
        obtain ⟨pre, v, v', post, hl, hl', hg, hpre⟩ := ih hm
        refine ⟨(k, v₀) :: pre, v, v', post, by simp [hl], by simp [hl'], hg, ?_⟩
        simp only [List.map_cons, List.mem_cons]
        push_neg
        exact ⟨fun h => hk h.symm, by simpa using hpre⟩

theorem aupdateO_of_lookup {l : List (K × B)} {key : K} {g : B → Option B} {v v' : B}
    (hl : alookup l key = some v) (hg : g v = some v') :
    ∃ l', aupdateO l key g = some l' ∧ alookup l' key = some v' ∧
      ∀ k', k' ≠ key → alookup l' k' = alookup l k' := by
  induction l with
  | nil => cases hl
  | cons p rest ih =>
      obtain ⟨k, v₀⟩ := p
      by_cases hk : k = key
      · subst hk
        simp only [alookup, if_pos rfl] at hl
        obtain rfl : v₀ = v := by injection hl
        refine ⟨(k, v') :: rest, ?_, ?_, ?_⟩
        · simp [aupdateO, hg]
        · simp [alookup]
        · intro k' hk'
          have : ¬ k = k' := fun h => hk' h.symm
          simp [alookup, this]
      · simp only [alookup, if_neg hk] at hl
        obtain ⟨l₀, h₀, h₁, h₂⟩ := ih hl
        refine ⟨(k, v₀) :: l₀, ?_, ?_, ?_⟩
        · simp [aupdateO, hk, h₀]
        · simp [alookup, hk, h₁]
        · intro k' hk'
          by_cases hkk : k = k'
          · simp [alookup, hkk]
          · simp [alookup, hkk, h₂ k' hk']

theorem aupdateO_of_lookup_none {l : List (K × B)} {key : K} {g : B → Option B}
    (hl : alookup l key = none) : aupdateO l key g = none := by
  induction l with
  | nil => rfl
  | cons p rest ih =>
      obtain ⟨k, v₀⟩ := p
      by_cases hk : k = key
      · simp [alookup, hk] at hl
      · simp only [alookup, if_neg hk] at hl
        simp [aupdateO, hk, ih hl]

theorem aupdateO_keys {l : List (K × B)} {key : K} {g : B → Option B} {l' : List (K × B)}
    (h : aupdateO l key g = some l') : l'.map Prod.fst = l.map Prod.fst := by
  obtain ⟨pre, v, v', post, hl, hl', -, -⟩ := aupdateO_some_spec h
  subst hl hl'
  simp

/-! ### Python string primitives

Python strings are modelled as `List Char` where character-level work is
needed, packed into `String` at the interface. -/

/-- The whitespace set of Python `str.strip()`. -/
def isPySpace (c : Char) : Bool :=
  c = ' ' || c = '\t' || c = '\n' || c = Char.ofNat 13 || c = Char.ofNat 11 || c = Char.ofNat 12

/-- Python `str.strip()`. -/
def pyStrip (l : List Char) : List Char :=
  ((l.dropWhile isPySpace).reverse.dropWhile isPySpace).reverse

/-- Python `str.upper()` (ASCII, which is all the source compares). -/
def pyUpper (s : String) : String := ⟨s.data.map Char.toUpper⟩

/-- Python `str.lower()` on a character list. -/
def lowerChars (l : List Char) : List Char := l.map Char.toLower

/-- `str.replace("'", "")` — the quote character is removed. -/
def removeQuotes (l : List Char) : List Char := l.filter (fun c => c != Char.ofNat 39)

/-- `str.replace(",", ";")`. -/
def commaToSemi (l : List Char) : List Char := l.map (fun c => if c = ',' then ';' else c)

/-- `str.replace("\n", "_n")`. -/
def nlToUnderscoreN (l : List Char) : List Char :=
  l.flatMap (fun c => if c = '\n' then ['_', 'n'] else [c])

def ellipsisChars : List Char := ['.', '.', '.']

/-! ### Report-field values and the V3 cleaning pipeline
(`_process_spatial_intersection`, lines 347-366) -/

/-- A raw attribute value as read from the joined cursor.  `float` is an
idealisation of Python floats by rationals. -/
inductive PyVal
  | str (v : String)
  | int (v : Int)
  | float (v : ℚ)
  | date (y m d : Nat)
  | pynone
deriving DecidableEq

def pad2 (n : Nat) : List Char := if n < 10 then '0' :: (toString n).data else (toString n).data

def pad4 (n : Nat) : List Char :=
  if n < 10 then '0' :: '0' :: '0' :: (toString n).data
  else if n < 100 then '0' :: '0' :: (toString n).data
  else if n < 1000 then '0' :: (toString n).data
  else (toString n).data

/-- `datetime.strftime('%Y-%m-%d')`. -/
def fmtDate (y m d : Nat) : List Char := pad4 y ++ '-' :: pad2 m ++ '-' :: pad2 d

/-- Python `str(value)` for non-date values.  The rendering of floats is an
idealisation (no theorem below depends on it); `str(None)` is `"None"`. -/
def pyValStr : PyVal → List Char
  | .str v => v.data
  | .int n => (toString n).data
  | .float q => (toString q).data
  | .date y m d => fmtDate y m d
  | .pynone => ['N', 'o', 'n', 'e']

/-- The script constant `MAX_STRING_LEN` (V3 line 26). -/
def MAX_STRING_LEN : Nat := 50

/-- The no-value markers of V3 line 361: `['none', 'null', 'nan', '']`. -/
def noValueMarkers : List (List Char) :=
  [['n', 'o', 'n', 'e'], ['n', 'u', 'l', 'l'], ['n', 'a', 'n'], []]

/-- V3 lines 363-366: truncate an over-long field to
`MAX_STRING_LEN - 3` characters plus a trailing ellipsis. -/
def truncateMax (l : List Char) : List Char :=
  if MAX_STRING_LEN < l.length then l.take (MAX_STRING_LEN - 3) ++ ellipsisChars else l

/-- V3 lines 350-366: clean one report-field value.  `none` means the value
is dropped from the tuple (empty after cleaning, or a no-value marker). -/
def cleanChars (v : PyVal) : Option (List Char) :=
  let sv : List Char :=
    match v with
    | .date y m d => fmtDate y m d
    | w => pyStrip (pyValStr w)
  let sv := nlToUnderscoreN (commaToSemi (removeQuotes sv))
  if sv ≠ [] ∧ lowerChars sv ∉ noValueMarkers then some (truncateMax sv) else none

def cleanField (v : PyVal) : Option String := (cleanChars v).map (fun l => ⟨l⟩)

/-- The `field_values` list built for one joined record (values that clean
to nothing are skipped). -/
def cleanFields (vs : List PyVal) : List String := vs.filterMap cleanField

/-! ### V2008 `get_values_areas` attribute capping (lines 331-353) -/

namespace V2008

/-- V2008 lines 331-333: pre-truncation of a single cleaned value. -/
def cleanAttr200 (l : List Char) : List Char :=
  if 200 < l.length then l.take 200 ++ ellipsisChars else l

/-- V2008 lines 335 and 353: `sum(len(attr) for attr in attrs) + 3 * (len(attrs) - 1)`. -/
def totalLen (attrs : List (List Char)) : Nat :=
  (attrs.map List.length).sum + 3 * (attrs.length - 1)

/-- Python `attr.endswith("...")`. -/
def endsWithEllipsis (a : List Char) : Bool := a.drop (a.length - 3) == ellipsisChars

/-- V2008 lines 343-350: strip an existing ellipsis, drop one character from
the end, and re-append the ellipsis. -/
def trimOne (a : List Char) : List Char :=
  let a1 := if endsWithEllipsis a then a.take (a.length - 3) else a
  a1.take (a1.length - 1) ++ ellipsisChars

/-- V2008 line 339: `max(range(len(attrs)), key=...)` — split the list at its
first longest element (Python `max` keeps the first among ties). -/
def pickLongest : List (List Char) → Option (List (List Char) × List Char × List (List Char))
  | [] => none
  | a :: rest =>
      match pickLongest rest with
      | none => some ([], a, rest)
      | some (pre, b, post) =>
          if a.length < b.length then some (a :: pre, b, post) else some ([], a, rest)

/-- One iteration of the `while total_len > 200` body. -/
def trimStep (attrs : List (List Char)) : List (List Char) :=
  match pickLongest attrs with
  | none => attrs
  | some (pre, b, post) => pre ++ trimOne b :: post

/-- V2008 lines 337-353, with explicit fuel (the loop is shown below to
reach `totalLen ≤ 200` within the provided fuel for ≤ 4 attributes). -/
def trimLoop : Nat → List (List Char) → List (List Char)
  | 0, attrs => attrs
  | fuel + 1, attrs =>
      if 200 < totalLen attrs then trimLoop fuel (trimStep attrs) else attrs

def capAttrs (attrs : List (List Char)) : List (List Char) :=
  trimLoop (totalLen attrs + 3 * attrs.length + 1) attrs

end V2008

/-! ### Aggregated rows and the output dictionary (V3) -/

/-- One element of a Python result list: a cleaned report-field string, or
the trailing counter (`int`) / measure accumulator (float, idealised as
`ℚ`).  In the source these never compare equal across kinds at any reached
comparison, so plain constructor equality is faithful. -/
inductive Cell
  | s (v : String)
  | i (v : Int)
  | q (v : ℚ)
deriving DecidableEq

abbrev Row := List Cell

/-- Python truthiness of a cell value (`""`, `0`, `0.0` are falsy). -/
def cellTruthy : Cell → Bool
  | .s v => v != ""
  | .i n => n != 0
  | .q x => x != 0

/-- Python `str(cell)`; the float rendering is an idealisation (unreachable
in the theorems below). -/
def cellStr : Cell → String
  | .s v => v
  | .i n => toString n
  | .q x => toString x

/-- The two location keys of the output dictionary (V3 line 443). -/
inductive Loc
  | in_polygon
  | in_buffer
deriving DecidableEq

structure LocData where
  in_polygon : List Row
  in_buffer : List Row
deriving DecidableEq

def LocData.get (ld : LocData) : Loc → List Row
  | .in_polygon => ld.in_polygon
  | .in_buffer => ld.in_buffer

def LocData.set (ld : LocData) : Loc → List Row → LocData
  | .in_polygon, b => { ld with in_polygon := b }
  | .in_buffer, b => { ld with in_buffer := b }

/-- `output_dict[fid][theme]` nesting: feature id → theme → location → rows. -/
abbrev FeatureData := List (String × LocData)
abbrev OutputDict := List (Int × FeatureData)

def lookupBucket (d : OutputDict) (f : Int) (θ : String) (loc : Loc) : Option (List Row) :=
  (alookup d f).bind fun fd => (alookup fd θ).map fun ld => ld.get loc

/-- In-place update of `self.output_dict[fid][theme][loc]`; `none` models a
`KeyError`. -/
def updateBucket (d : OutputDict) (f : Int) (θ : String) (loc : Loc)
    (g : List Row → Option (List Row)) : Option OutputDict :=
  aupdateO d f fun fd => aupdateO fd θ fun ld => (g (ld.get loc)).map (ld.set loc)

def initFeatureData (themes : List String) : FeatureData :=
  themes.foldl (fun fd θ => pyInsert fd θ ⟨[], []⟩) []

/-- `create_output_dict` (V3 lines 426-444): one entry per cursor row of the
works feature class, duplicate ids collapsing onto one dictionary key. -/
def create_output_dict (ids : List Int) (themes : List String) : OutputDict :=
  ids.foldl (fun d f => pyInsert d f (initFeatureData themes)) []

/-! ### The three aggregation methods -/

/-- `existing_entry[-1] += 1` (V3 line 380); `none` models the `IndexError`
on an empty row or the `TypeError` on a non-numeric trailing cell. -/
def incLast (r : Row) : Option Row :=
  match r.getLast? with
  | none => none
  | some (.i n) => some (r.dropLast ++ [.i (n + 1)])
  | some (.q x) => some (r.dropLast ++ [.q (x + 1)])
  | some (.s _) => none

/-- `existing_entry[-1] += measure` (V3 line 401). -/
def addLast (r : Row) (m : ℚ) : Option Row :=
  match r.getLast? with
  | none => none
  | some (.i n) => some (r.dropLast ++ [.q (n + m)])
  | some (.q x) => some (r.dropLast ++ [.q (x + m)])
  | some (.s _) => none

/-- V3 lines 369-372 (`PRESENT`): append unless an identical tuple exists. -/
def presentStep (b : List Row) (fv : List String) : List Row :=
  let row : Row := fv.map Cell.s
  if row ∈ b then b else b ++ [row]

/-- V3 lines 374-387 (`COUNT`): increment the trailing counter of the first
row whose `existing_entry[:-1]` equals the tuple, else append with count 1. -/
def countStep : List Row → List String → Option (List Row)
  | [], fv => some [fv.map Cell.s ++ [.i 1]]
  | e :: rest, fv =>
      if e.dropLast = fv.map Cell.s then (incLast e).map (· :: rest)
      else (countStep rest fv).map (e :: ·)

/-- V3 lines 396-408 (`MEASURE`): accumulate into the first matching row's
trailing cell, else append the tuple with the measure. -/
def measureStep : List Row → List String → ℚ → Option (List Row)
  | [], fv, m => some [fv.map Cell.s ++ [.q m]]
  | e :: rest, fv, m =>
      if e.dropLast = fv.map Cell.s then (addLast e m).map (· :: rest)
      else (measureStep rest fv m).map (e :: ·)

/-! ### The intersection pass -/

/-- The geometry of one joined record (`SHAPE@`), summarised by the two
quantities the script reads. -/
structure Shape where
  area : ℚ
  length : ℚ
deriving DecidableEq

/-- One row of the intersect join, after the definition-query selection:
subject feature id plus the value layer's report fields. -/
structure JRecord where
  shape : Shape
  fid : Int
  fields : List PyVal
deriving DecidableEq

/-- The body of the cursor loop of `_process_spatial_intersection`
(V3 lines 340-408) for one joined record; `none` models an exception inside
the loop: a `KeyError` on an unknown feature id, or — for `MEASURE` on a
geometry that is neither polygon nor polyline — the unbound `measure`
variable at its first use (lines 401/407, before any mutation). -/
def recordStep (θ : String) (loc : Loc) (geometry_type method : String)
    (d : OutputDict) (r : JRecord) : Option OutputDict :=
  let fv := cleanFields r.fields
  if pyUpper method = "PRESENT" then
    updateBucket d r.fid θ loc (fun b => some (presentStep b fv))
  else if pyUpper method = "COUNT" then
    updateBucket d r.fid θ loc (fun b => countStep b fv)
  else if pyUpper method = "MEASURE" then
    (if geometry_type = "POLYGON" then some (r.shape.area / 10000)
     else if geometry_type = "POLYLINE" then some (r.shape.length / 1000)
     else none).bind
      fun m => updateBucket d r.fid θ loc (fun b => measureStep b fv m)
  else some d

/-- The cursor loop; on an exception the `except` at V3 lines 416-417 keeps
the dictionary mutated so far and logs an error (the `Bool`). -/
def processRecords (θ : String) (loc : Loc) (geometry_type method : String) :
    OutputDict → List JRecord → OutputDict × Bool
  | d, [] => (d, false)
  | d, r :: rs =>
      match recordStep θ loc geometry_type method d r with
      | none => (d, true)
      | some d' => processRecords θ loc geometry_type method d' rs

/-- One entry of `reftab_dict` (V3 lines 565-576). -/
structure ReftabEntry where
  theme_name : String
  cached_fc : String
  geometry_type : String
  method : String
  definition_query : Option String
  buffer_distance : Int
  repfld1 : String
  repfld2 : String
  repfld3 : String
  repfld4 : String
deriving DecidableEq

/-- `_process_spatial_intersection` (V3 lines 295-417).  The outcome of the
external selection/describe/intersect stage is a parameter: `.error` models
a spatial or query error raised before the cursor loop (bad definition
query, geometry-operation failure), caught by the handler at lines 416-417. -/
def process_spatial_intersection (e : ReftabEntry) (loc : Loc)
    (spatial : Except String (List JRecord)) (d : OutputDict) : OutputDict × Bool :=
  match spatial with
  | .error _ => (d, true)
  | .ok records =>
      if records.isEmpty then (d, false)
      else processRecords e.theme_name loc e.geometry_type e.method d records

/-- `process_intersections` (V3 lines 244-293): polygon pass, then buffer
pass when a positive buffer distance is configured.  Errors are logged but
never propagate (the `except` at lines 292-293). -/
def process_intersections (e : ReftabEntry)
    (spatialPoly spatialBuff : Except String (List JRecord)) (d : OutputDict) :
    OutputDict × Bool :=
  let r1 := process_spatial_intersection e .in_polygon spatialPoly d
  if 0 < e.buffer_distance then
    let r2 := process_spatial_intersection e .in_buffer spatialBuff r1.1
    (r2.1, r1.2 || r2.2)
  else r1

/-- STEP 4 of `run` (V3 lines 87-88): process every configured layer in
order; no per-layer error stops the loop. -/
def processAllLayers (entries : List (String × ReftabEntry))
    (spatial : String → Loc → Except String (List JRecord)) (d : OutputDict) : OutputDict :=
  entries.foldl
    (fun d p => (process_intersections p.2 (spatial p.1 .in_polygon) (spatial p.1 .in_buffer) d).1) d

/-! ### Loading the reference table (`load_values_fcs`, V3 lines 517-581) -/

/-- One row of the reference table, as read by the cursor (lines 534-539). -/
structure ReftabRow where
  theme_name : String
  requires_check : String
  default_ws : String
  location : String
  gdb_name : String
  fc_name : String
  query : Option String
  method : String
  repfld1 : String
  repfld2 : String
  repfld3 : String
  repfld4 : String
  buffer_distance : Int
deriving DecidableEq

structure ConfigState where
  values_cache : List (String × String)
  reftab_dict : List (String × ReftabEntry)
  layer_name : Option String

/-- V3 line 562: blank or whitespace-only definition queries become `None`. -/
def cleanQuery : Option String → Option String
  | none => none
  | some q => if q = "" ∨ pyStrip q.data = [] then none else some q

def joinPath (a b c d : String) : String := a ++ "\\" ++ b ++ "\\" ++ c ++ "\\" ++ d

/-- The body of the `load_values_fcs` cursor loop (lines 535-576).
`describe` maps a layer name to its `shapeType`, `idSelf` is Python
`id(self)`.  When the feature class is already cached the Python local
`layer_name` keeps its value from the previous loop iteration — including
for line 558's `Describe` and the `cached_fc` field; `none` models the
`NameError` when it was never assigned (unreachable from the initial
state, as proved below). -/
def loadStep (gispub idSelf : String) (describe : String → String)
    (st : ConfigState) (row : ReftabRow) : Option ConfigState :=
  if pyUpper row.requires_check = "Y" then
    let _path : String :=
      if pyUpper row.default_ws = "Y" then joinPath gispub row.location row.gdb_name row.fc_name
      else row.location
    let next :=
      if alookup st.values_cache row.fc_name = none then
        let ln := row.fc_name ++ "_" ++ idSelf
        (pyInsert st.values_cache row.fc_name ln, some ln)
      else (st.values_cache, st.layer_name)
    match next.2 with
    | none => none
    | some ln =>
        some { values_cache := next.1,
               reftab_dict := pyInsert st.reftab_dict row.fc_name
                 { theme_name := row.theme_name, cached_fc := ln,
                   geometry_type := pyUpper (describe ln),
                   method := row.method,
                   definition_query := cleanQuery row.query,
                   buffer_distance := row.buffer_distance,
                   repfld1 := row.repfld1, repfld2 := row.repfld2,
                   repfld3 := row.repfld3, repfld4 := row.repfld4 },
               layer_name := some ln }
  else some st

/-- `load_values_fcs`: fold the reference-table rows; an exception keeps the
state built so far and logs an error (the `except` at lines 580-581). -/
def load_values_fcs (gispub idSelf : String) (describe : String → String) :
    ConfigState → List ReftabRow → ConfigState × Bool
  | st, [] => (st, false)
  | st, row :: rest =>
      match loadStep gispub idSelf describe st row with
      | none => (st, true)
      | some st' => load_values_fcs gispub idSelf describe st' rest

def initConfigState : ConfigState :=
  { values_cache := [], reftab_dict := [], layer_name := none }

/-! ### `_results_to_string` (V3 lines 150-241) -/

def crlf : String := "\r\n"

def emptyStr : String := ""

def cellEmpty : Cell := .s emptyStr

def joinBar (l : List String) : String := String.intercalate (" | ") l

def joinCrlf (l : List String) : String := String.intercalate crlf l

/-- Python `list.sort()` on strings: insertion sort by the string order. -/
def insertSorted (x : String) : List String → List String
  | [] => [x]
  | y :: ys => if y < x then y :: insertSorted x ys else x :: y :: ys

def pySort (l : List String) : List String := l.foldr insertSorted []

/-- Python `f"{v:.1f}"`: fixed-point with one decimal; rounding of the
rational idealisation is round-half-up.  A string value raises (`none`). -/
def fmtFixed1 : Cell → Option String
  | .s _ => none
  | .i n => some (toString n ++ ".0")
  | .q x =>
      let n : Int := round (10 * x)
      some ((if n < 0 then "-" else emptyStr) ++ toString (n.natAbs / 10) ++ "." ++
        toString (n.natAbs % 10))

/-- One iteration of the `for value in input` body (V3 lines 180-216):
compute the new `val_str`.  `vs` is the carried (possibly unassigned)
`val_str`; the outer `none` is a raised exception (`ValueError` from
formatting a string cell with `:.1f`); `some vs` keeps the carried value
when no branch assigns (as the Python locals do). -/
def renderValue (method geometry_type : String) (vs : Option String) (value : Row) :
    Option (Option String) :=
  if pyUpper method = "PRESENT" then
    some (some (
      if 1 < value.length then
        cellStr (value.headD cellEmpty) ++ " (" ++ joinBar ((value.drop 1).map cellStr) ++ ")"
      else if value.any cellTruthy then cellStr (value.headD cellEmpty)
      else "Nil"))
  else if pyUpper method = "COUNT" then
    if 1 < value.length then
      some (some (
        if 2 < value.length then
          cellStr (value.headD cellEmpty) ++ " (" ++
            joinBar (((value.drop 1).dropLast).map cellStr) ++ ") - " ++
            cellStr (value.getLastD cellEmpty)
        else cellStr (value.headD cellEmpty) ++ " - " ++ cellStr (value.getLastD cellEmpty)))
    else if value.any cellTruthy then some (some (cellStr (value.headD cellEmpty)))
    else some vs
  else if pyUpper method = "MEASURE" then
    let meas_str := if geometry_type = "POLYGON" then "ha"
      else if geometry_type = "POLYLINE" then "km" else emptyStr
    if 1 < value.length then
      (fmtFixed1 (value.getLastD cellEmpty)).map (fun m => some (
        if 2 < value.length then
          cellStr (value.headD cellEmpty) ++ " (" ++
            joinBar (((value.drop 1).dropLast).map cellStr) ++ ") - " ++ m ++ meas_str
        else cellStr (value.headD cellEmpty) ++ " - " ++ m ++ meas_str))
    else if value.any cellTruthy then some (some (cellStr (value.headD cellEmpty)))
    else some vs
  else some vs

/-- One location pass of `_results_to_string` (lines 173-219): `["Nil"]`
when the row list is empty or every row is an empty list (line 177's
`not any(input)`), else the per-row strings in Python sort order.  The
second component is `val_str` as carried out of the loop. -/
def locationOutput (vs0 : Option String) (rows : List Row) (method geometry_type : String) :
    Option (List String × Option String) :=
  if rows.all (fun r => r.isEmpty) then some (["Nil"], vs0)
  else
    (rows.foldlM (fun (acc : List String × Option String) value => do
        let vs' ← renderValue method geometry_type acc.2 value
        let s ← vs'
        pure (acc.1 ++ [s], vs')) (([] : List String), vs0)).map
      (fun (out : List String × Option String) => (pySort out.1, out.2))

/-- `_results_to_string` (V3 lines 150-241).  `none` is the caught-exception
path (the Python function then returns `None`).  The polygon location is
always rendered; the buffer location only when `buffer_distance > 0`; a
space (rather than a line break) separates a header from a leading
`"Nil"`. -/
def results_to_string (list_poly list_buff : List Row) (method : String)
    (buffer_distance : Int) (geometry_type : String) : Option String := do
  let po ← locationOutput none list_poly method geometry_type
  if 0 < buffer_distance then
    let bo ← locationOutput po.2 list_buff method geometry_type
    let h ← po.1.head?
    let hb ← bo.1.head?
    pure (("In polygon:" ++ (if h = "Nil" then " " else crlf) ++ joinCrlf po.1)
      ++ (crlf ++ "In " ++ toString buffer_distance ++ "m buffer:")
      ++ ((if hb = "Nil" then " " else crlf) ++ joinCrlf bo.1))
  else
    let h ← po.1.head?
    pure ("In polygon:" ++ (if h = "Nil" then " " else crlf) ++ joinCrlf po.1)

/-- The polygon section of a cell on its own (spec-side decomposition used
by the claims about the formatter). -/
def polySection (list_poly : List Row) (method geometry_type : String) : Option String := do
  let po ← locationOutput none list_poly method geometry_type
  let h ← po.1.head?
  pure ("In polygon:" ++ (if h = "Nil" then " " else crlf) ++ joinCrlf po.1)

/-! ### `data_to_csv` (V3 lines 100-148) and the orchestrator `run` -/

/-- The loop-carried locals assigned at lines 127-131. -/
structure MB where
  method : String
  buffer_distance : Int
  geometry_type : String

/-- Lines 127-131: scan the whole `reftab_dict`; the *last* matching entry
assigns the loop locals; with no match the stale carried values survive
(`none` = they were never assigned, a `NameError` at first use). -/
def themeLookup (reftab : List (String × ReftabEntry)) (θ : String)
    (carried : Option MB) : Option MB :=
  reftab.foldl
    (fun acc p =>
      if p.2.theme_name = θ then some ⟨p.2.method, p.2.buffer_distance, p.2.geometry_type⟩
      else acc)
    carried

/-- Build one CSV data row (lines 122-138): the feature id followed by one
formatted cell per theme; `none` models an exception (`NameError` on a
theme matching no reference entry, `KeyError` on missing nesting).  A
`None` returned by `_results_to_string` is written as an empty cell. -/
def buildRow (reftab : List (String × ReftabEntry)) (themes : List String)
    (fid : Int) (fd : FeatureData) (carried : Option MB) :
    Option (List String × Option MB) :=
  themes.foldlM (fun acc θ => do
      let mb ← themeLookup reftab θ acc.2
      let ld ← alookup fd θ
      let cell := results_to_string ld.in_polygon ld.in_buffer mb.method
        mb.buffer_distance mb.geometry_type
      pure (acc.1 ++ [cell.getD emptyStr], some mb))
    ([toString fid], carried)

/-- The feature loop of `data_to_csv` inside its `except`: an exception
keeps the rows already written and logs an error. -/
def csvLoop (reftab : List (String × ReftabEntry)) (themes : List String) :
    List (Int × FeatureData) → Option MB → List (List String) → List (List String) × Bool
  | [], _, acc => (acc, false)
  | (fid, fd) :: rest, mb, acc =>
      match buildRow reftab themes fid fd mb with
      | none => (acc, true)
      | some (row, mb') => csvLoop reftab themes rest mb' (acc ++ [row])

/-- `data_to_csv` (lines 100-148): the header (id field plus the first
feature's theme keys) then one row per dictionary entry, in dictionary
order.  On an empty dictionary `next(iter(output_dict.values()))` raises
`StopIteration`, caught at lines 147-148: nothing at all is written and an
error is logged. -/
def data_to_csv (d : OutputDict) (reftab : List (String × ReftabEntry))
    (id_field : String) : List (List String) × Bool :=
  match d with
  | [] => ([], true)
  | (_, fd0) :: _ =>
      let themes := fd0.map Prod.fst
      csvLoop reftab themes d none [id_field :: themes]

/-- What `run` (V3 lines 69-98) observably produces for the claims below.
The output CSV file itself is opened in `__init__` (line 57), before any
processing happens. -/
structure RunOutcome where
  csvFileCreated : Bool
  csvRows : List (List String)
  csvErrorLogged : Bool
  completedLogged : Bool
deriving DecidableEq

/-- The orchestrator `run`: load the configuration, initialise the output
dictionary, run all intersections, write the CSV.  Every step catches its
own exceptions, so the completion log of lines 93-94 is always reached. -/
def runTool (reftabRows : List ReftabRow) (gispub idSelf : String)
    (describe : String → String) (ids : List Int)
    (spatial : String → Loc → Except String (List JRecord)) (id_field : String) :
    RunOutcome :=
  let cfg := (load_values_fcs gispub idSelf describe initConfigState reftabRows).1
  let entries := cfg.reftab_dict
  let d0 := create_output_dict ids (entries.map (fun p => p.2.theme_name))
  let d1 := processAllLayers entries spatial d0
  let rowsErr := data_to_csv d1 entries id_field
  { csvFileCreated := true, csvRows := rowsErr.1, csvErrorLogged := rowsErr.2,
    completedLogged := true }

/-! ## Infrastructure lemmas -/

theorem alookup_isSome_of_mem_keys {l : List (K × B)} {k : K} (h : k ∈ l.map Prod.fst) :
    ∃ v, alookup l k = some v := by
  induction l with
  | nil => simp at h
  | cons p rest ih =>
      obtain ⟨k₀, v₀⟩ := p
      by_cases hk : k₀ = k
      · exact ⟨v₀, by simp [alookup, hk]⟩
      · simp only [List.map_cons, List.mem_cons] at h
        rcases h with h | h
        · exact absurd h.symm hk
        · obtain ⟨v, hv⟩ := ih h
          exact ⟨v, by simp [alookup, hk, hv]⟩

theorem alookup_mem {l : List (K × B)} {k : K} {v : B} (h : alookup l k = some v) :
    (k, v) ∈ l := by
  induction l with
  | nil => cases h
  | cons p rest ih =>
      obtain ⟨k₀, v₀⟩ := p
      by_cases hk : k₀ = k
      · subst hk
        simp only [alookup, if_pos rfl] at h
        injection h with h
        simp [h]
      · simp only [alookup, if_neg hk] at h
        simp [ih h]

theorem alookup_of_mem_nodupKeys {l : List (K × B)} {p : K × B}
    (hnd : (l.map Prod.fst).Nodup) (h : p ∈ l) : alookup l p.1 = some p.2 := by
  induction l with
  | nil => simp at h
  | cons q rest ih =>
      obtain ⟨k₀, v₀⟩ := q
      simp only [List.map_cons, List.nodup_cons] at hnd
      rcases List.mem_cons.mp h with h | h
      · subst h
        simp [alookup]
      · have : ¬ k₀ = p.1 := by
          intro hk
          exact hnd.1 (hk ▸ List.mem_map_of_mem Prod.fst h)
        simp [alookup, this, ih hnd.2 h]

theorem pyInsert_mem {l : List (K × B)} {k : K} {v : B} {p : K × B}
    (h : p ∈ pyInsert l k v) : p ∈ l ∨ p = (k, v) := by
  induction l with
  | nil =>
      simp only [pyInsert, List.mem_singleton] at h
      exact Or.inr h
  | cons q rest ih =>
      obtain ⟨k₀, v₀⟩ := q
      by_cases hk : k₀ = k
      · subst hk
        simp [pyInsert] at h
        rcases h with h | h
        · exact Or.inr h
        · exact Or.inl (List.mem_cons_of_mem _ h)
      · simp only [pyInsert, if_neg hk, List.mem_cons] at h
        rcases h with h | h
        · exact Or.inl (h ▸ List.mem_cons_self _ _)
        · rcases ih h with h' | h'
          · exact Or.inl (List.mem_cons_of_mem _ h')
          · exact Or.inr h'

theorem pyInsert_nodupKeys {l : List (K × B)} {k : K} {v : B}
    (h : (l.map Prod.fst).Nodup) : ((pyInsert l k v).map Prod.fst).Nodup := by
  rw [keysOf_pyInsert]
  by_cases hk : k ∈ l.map Prod.fst
  · simpa [hk] using h
  · simp only [hk, if_false]
    simpa [List.nodup_append, hk] using h

theorem aupdateO_lookups {l l' : List (K × B)} {key : K} {g : B → Option B}
    (h : aupdateO l key g = some l') :
    ∃ v v', alookup l key = some v ∧ g v = some v' ∧ alookup l' key = some v' ∧
      ∀ k', k' ≠ key → alookup l' k' = alookup l k' := by
  induction l generalizing l' with
  | nil => cases h
  | cons p rest ih =>
      obtain ⟨k, v₀⟩ := p
      by_cases hk : k = key
      · subst hk
        simp only [aupdateO, if_pos rfl] at h
        obtain ⟨v', hv', rfl⟩ := Option.map_eq_some'.mp h
        refine ⟨v₀, v', by simp [alookup], hv', by simp [alookup], ?_⟩
        intro k' hk'
        have : ¬ k = k' := fun hkk => hk' hkk.symm
        simp [alookup, this]
      · simp only [aupdateO, if_neg hk] at h
        obtain ⟨m, hm, rfl⟩ := Option.map_eq_some'.mp h
        obtain ⟨v, v', h₁, h₂, h₃, h₄⟩ := ih hm
        refine ⟨v, v', by simp [alookup, hk, h₁], h₂, by simp [alookup, hk, h₃], ?_⟩
        intro k' hk'
        by_cases hkk : k = k'
        · simp [alookup, hkk]
        · simp [alookup, hkk, h₄ k' hk']

theorem LocData.get_set_same (ld : LocData) (loc : Loc) (b : List Row) :
    (ld.set loc b).get loc = b := by
  cases loc <;> rfl

theorem LocData.get_set_other (ld : LocData) (loc loc' : Loc) (b : List Row)
    (h : loc' ≠ loc) : (ld.set loc b).get loc' = ld.get loc' := by
  cases loc <;> cases loc' <;> first | rfl | exact absurd rfl h

/-- Full description of a successful bucket update: the addressed bucket is
rewritten by `g`, every other bucket is untouched. -/
theorem updateBucket_spec {d d' : OutputDict} {fid : Int} {θ0 : String} {loc0 : Loc}
    {g : List Row → Option (List Row)} (h : updateBucket d fid θ0 loc0 g = some d') :
    ∃ b b', lookupBucket d fid θ0 loc0 = some b ∧ g b = some b' ∧
      lookupBucket d' fid θ0 loc0 = some b' ∧
      ∀ f θ loc, ¬ (f = fid ∧ θ = θ0 ∧ loc = loc0) →
        lookupBucket d' f θ loc = lookupBucket d f θ loc := by
  obtain ⟨fd, fd', hfd, hG, hfd', hframe⟩ := aupdateO_lookups h
  obtain ⟨ld, ld', hld, hH, hld', hframe'⟩ := aupdateO_lookups hG
  obtain ⟨b', hb', rfl⟩ := Option.map_eq_some'.mp hH
  refine ⟨ld.get loc0, b', by simp [lookupBucket, hfd, hld], hb',
    by simp [lookupBucket, hfd', hld', LocData.get_set_same], ?_⟩
  intro f θ loc hne
  by_cases hf : f = fid
  · subst hf
    by_cases hθ : θ = θ0
    · subst hθ
      have hloc : loc ≠ loc0 := fun hl => hne ⟨rfl, rfl, hl⟩
      simp [lookupBucket, hfd, hfd', hld, hld', LocData.get_set_other _ _ _ _ hloc]
    · simp [lookupBucket, hfd, hfd', hframe' θ hθ]
  · simp [lookupBucket, hframe f hf]

theorem updateBucket_of_lookup {d : OutputDict} {fid : Int} {θ0 : String} {loc0 : Loc}
    {g : List Row → Option (List Row)} {b b' : List Row}
    (hl : lookupBucket d fid θ0 loc0 = some b) (hg : g b = some b') :
    ∃ d', updateBucket d fid θ0 loc0 g = some d' := by
  simp only [lookupBucket, Option.bind_eq_some, Option.map_eq_some'] at hl
  obtain ⟨fd, hfd, ld, hld, hb⟩ := hl
  have hH : (fun ld0 : LocData => (g (ld0.get loc0)).map (ld0.set loc0)) ld
      = some (ld.set loc0 b') := by
    show (g (ld.get loc0)).map (ld.set loc0) = some (ld.set loc0 b')
    rw [hb, hg]
    rfl
  obtain ⟨fd', hfd', -, -⟩ :=
    @aupdateO_of_lookup String LocData _ fd θ0
      (fun ld0 => (g (ld0.get loc0)).map (ld0.set loc0)) ld (ld.set loc0 b') hld hH
  obtain ⟨d', hd', -, -⟩ :=
    @aupdateO_of_lookup Int FeatureData _ d fid
      (fun fd0 => aupdateO fd0 θ0 (fun ld0 => (g (ld0.get loc0)).map (ld0.set loc0)))
      fd fd' hfd hfd'
  exact ⟨d', hd'⟩

/-- A successful bucket update changes neither the outer key sequence nor
any feature's theme-key sequence. -/
theorem updateBucket_struct {d d' : OutputDict} {fid : Int} {θ0 : String} {loc0 : Loc}
    {g : List Row → Option (List Row)} (h : updateBucket d fid θ0 loc0 g = some d') :
    d'.map Prod.fst = d.map Prod.fst ∧
      ∀ p ∈ d', ∃ q ∈ d, (p : Int × FeatureData).1 = q.1 ∧ p.2.map Prod.fst = q.2.map Prod.fst := by
  obtain ⟨pre, fd, fd', post, hd, hd', hG, -⟩ := aupdateO_some_spec h
  have hkeys : fd'.map Prod.fst = fd.map Prod.fst := aupdateO_keys hG
  subst hd hd'
  constructor
  · simp
  · intro p hp
    rcases List.mem_append.mp hp with hp | hp
    · exact ⟨p, List.mem_append_left _ hp, rfl, rfl⟩
    · rcases List.mem_cons.mp hp with hp | hp
      · subst hp
        exact ⟨(fid, fd), by simp, rfl, hkeys⟩
      · exact ⟨p, by simp [hp], rfl, rfl⟩

theorem alookup_foldl_pyInsert_keep {v : B} (ks : List K) (d₁ : List (K × B)) (k : K)
    (h : alookup d₁ k = some v) :
    alookup (ks.foldl (fun d k' => pyInsert d k' v) d₁) k = some v := by
  induction ks generalizing d₁ with
  | nil => simpa using h
  | cons b bs ihb =>
      simp only [List.foldl_cons]
      apply ihb
      by_cases hb : b = k
      · subst hb
        exact alookup_pyInsert_self d₁ b v
      · rw [alookup_pyInsert_other _ _ _ _ (fun he => hb he.symm)]
        exact h

/-- Lookups in a fold of constant-valued inserts. -/
theorem alookup_foldl_pyInsert_mem {v : B} (ks : List K) (d₀ : List (K × B)) (k : K)
    (h : k ∈ ks) : alookup (ks.foldl (fun d k' => pyInsert d k' v) d₀) k = some v := by
  induction ks generalizing d₀ with
  | nil => simp at h
  | cons a rest ih =>
      simp only [List.foldl_cons]
      by_cases hk : k ∈ rest
      · exact ih _ hk
      · have hka : k = a := by
          rcases List.mem_cons.mp h with h | h
          · exact h
          · exact absurd h hk
        subst hka
        exact alookup_foldl_pyInsert_keep rest _ k (alookup_pyInsert_self d₀ k v)

theorem alookup_foldl_pyInsert_const {v : B} (ks : List K) (d₀ : List (K × B)) (k : K) {w : B}
    (hd₀ : ∀ w', alookup d₀ k = some w' → w' = v)
    (h : alookup (ks.foldl (fun d k' => pyInsert d k' v) d₀) k = some w) : w = v := by
  induction ks generalizing d₀ with
  | nil => exact hd₀ w h
  | cons a rest ih =>
      simp only [List.foldl_cons] at h
      refine ih _ ?_ h
      intro w' hw'
      by_cases hk : a = k
      · subst hk
        rw [alookup_pyInsert_self] at hw'
        injection hw' with hw'
        exact hw'.symm
      · rw [alookup_pyInsert_other _ _ _ _ (fun he => hk he.symm)] at hw'
        exact hd₀ w' hw'

theorem create_output_dict_lookup {ids : List Int} {themes : List String} {f : Int}
    {θ : String} {loc : Loc} (hf : f ∈ ids) (hθ : θ ∈ themes) :
    lookupBucket (create_output_dict ids themes) f θ loc = some [] := by
  have h1 : alookup (create_output_dict ids themes) f = some (initFeatureData themes) :=
    alookup_foldl_pyInsert_mem ids [] f hf
  have h2 : alookup (initFeatureData themes) θ = some (⟨[], []⟩ : LocData) :=
    alookup_foldl_pyInsert_mem themes [] θ hθ
  cases loc <;> simp [lookupBucket, h1, h2, LocData.get]

/-! ### Method-step lemmas -/

/-- Well-formedness of a `COUNT` bucket: attribute strings plus a trailing
integer counter. -/
abbrev WFCount (b : List Row) : Prop :=
  ∀ r ∈ b, ∃ (attrs : List String) (n : Int), r = attrs.map Cell.s ++ [Cell.i n]

def lastInt (r : Row) : Int :=
  match r.getLast? with
  | some (.i n) => n
  | _ => 0

/-- The sum of the trailing counters of a bucket. -/
def sumCounts (b : List Row) : Int := (b.map lastInt).sum

/-- Well-formedness of a `MEASURE` bucket: attribute strings plus a trailing
rational accumulator. -/
abbrev WFMeas (b : List Row) : Prop :=
  ∀ r ∈ b, ∃ (attrs : List String) (x : ℚ), r = attrs.map Cell.s ++ [Cell.q x]

def lastQ (r : Row) : ℚ :=
  match r.getLast? with
  | some (.q x) => x
  | _ => 0

/-- The sum of the trailing measure accumulators of a bucket. -/
def sumMeas (b : List Row) : ℚ := (b.map lastQ).sum

theorem lastInt_concat (attrs : List Cell) (n : Int) : lastInt (attrs ++ [Cell.i n]) = n := by
  simp [lastInt, List.getLast?_concat]

theorem lastQ_concat (attrs : List Cell) (x : ℚ) : lastQ (attrs ++ [Cell.q x]) = x := by
  simp [lastQ, List.getLast?_concat]

theorem presentStep_nodup {b : List Row} {fv : List String} (h : b.Nodup) :
    (presentStep b fv).Nodup := by
  unfold presentStep
  by_cases hm : (fv.map Cell.s : Row) ∈ b
  · simpa [hm] using h
  · simpa [hm, List.nodup_append] using h

theorem presentStep_mem {b : List Row} {fv : List String}
    (h : (fv.map Cell.s : Row) ∈ b) : presentStep b fv = b := by
  simp [presentStep, h]

theorem countStep_total {b : List Row} (hwf : WFCount b) (fv : List String) :
    ∃ b', countStep b fv = some b' ∧ WFCount b' ∧ sumCounts b' = sumCounts b + 1 := by
  induction b with
  | nil =>
      refine ⟨[fv.map Cell.s ++ [Cell.i 1]], rfl, ?_, ?_⟩
      · intro r hr
        rw [List.mem_singleton] at hr
        exact ⟨fv, 1, hr⟩
      · simp [sumCounts, lastInt_concat]
  | cons e rest ih =>
      obtain ⟨attrs, n, rfl⟩ := hwf _ (List.mem_cons_self _ _)
      have hwrest : WFCount rest := fun r hr => hwf r (List.mem_cons_of_mem _ hr)
      by_cases hcond : attrs.map Cell.s = fv.map Cell.s
      · have hinc : incLast (attrs.map Cell.s ++ [Cell.i n]) =
            some (attrs.map Cell.s ++ [Cell.i (n + 1)]) := by
          simp [incLast, List.getLast?_concat, List.dropLast_concat]
        refine ⟨(attrs.map Cell.s ++ [Cell.i (n + 1)]) :: rest, ?_, ?_, ?_⟩
        · rw [hcond] at hinc
          simp [countStep, List.dropLast_concat, hcond, hinc]
        · intro r hr
          rcases List.mem_cons.mp hr with hr | hr
          · exact ⟨attrs, n + 1, hr⟩
          · exact hwrest r hr
        · simp only [sumCounts, List.map_cons, List.sum_cons, lastInt_concat]
          omega
      · obtain ⟨rest', h1, h2, h3⟩ := ih hwrest
        refine ⟨(attrs.map Cell.s ++ [Cell.i n]) :: rest', ?_, ?_, ?_⟩
        · simp [countStep, List.dropLast_concat, hcond, h1]
        · intro r hr
          rcases List.mem_cons.mp hr with hr | hr
          · exact ⟨attrs, n, hr⟩
          · exact h2 r hr
        · simp only [sumCounts, List.map_cons, List.sum_cons] at h3 ⊢
          omega

theorem countStep_append (fv : List String) :
    ∀ b : List Row, (∀ e ∈ b, List.dropLast e ≠ fv.map Cell.s) →
      countStep b fv = some (b ++ [fv.map Cell.s ++ [Cell.i 1]]) := by
  intro b
  induction b with
  | nil => intro _; rfl
  | cons e rest ih =>
      intro h
      have he := h e (List.mem_cons_self _ _)
      have hrest := ih (fun e' he' => h e' (List.mem_cons_of_mem _ he'))
      simp [countStep, he, hrest]

theorem countStep_increment (rest : List Row) (fv : List String) (n : Int) :
    countStep ((fv.map Cell.s ++ [Cell.i n]) :: rest) fv =
      some ((fv.map Cell.s ++ [Cell.i (n + 1)]) :: rest) := by
  simp [countStep, List.dropLast_concat, incLast, List.getLast?_concat]

theorem measureStep_total {b : List Row} (hwf : WFMeas b) (fv : List String) (m : ℚ) :
    ∃ b', measureStep b fv m = some b' ∧ WFMeas b' ∧ sumMeas b' = sumMeas b + m := by
  induction b with
  | nil =>
      refine ⟨[fv.map Cell.s ++ [Cell.q m]], rfl, ?_, ?_⟩
      · intro r hr
        rw [List.mem_singleton] at hr
        exact ⟨fv, m, hr⟩
      · simp [sumMeas, lastQ_concat]
  | cons e rest ih =>
      obtain ⟨attrs, x, rfl⟩ := hwf _ (List.mem_cons_self _ _)
      have hwrest : WFMeas rest := fun r hr => hwf r (List.mem_cons_of_mem _ hr)
      by_cases hcond : attrs.map Cell.s = fv.map Cell.s
      · have hadd : addLast (attrs.map Cell.s ++ [Cell.q x]) m =
            some (attrs.map Cell.s ++ [Cell.q (x + m)]) := by
          simp [addLast, List.getLast?_concat, List.dropLast_concat]
        refine ⟨(attrs.map Cell.s ++ [Cell.q (x + m)]) :: rest, ?_, ?_, ?_⟩
        · rw [hcond] at hadd
          simp [measureStep, List.dropLast_concat, hcond, hadd]
        · intro r hr
          rcases List.mem_cons.mp hr with hr | hr
          · exact ⟨attrs, x + m, hr⟩
          · exact hwrest r hr
        · simp only [sumMeas, List.map_cons, List.sum_cons, lastQ_concat]
          ring
      · obtain ⟨rest', h1, h2, h3⟩ := ih hwrest
        refine ⟨(attrs.map Cell.s ++ [Cell.q x]) :: rest', ?_, ?_, ?_⟩
        · simp [measureStep, List.dropLast_concat, hcond, h1]
        · intro r hr
          rcases List.mem_cons.mp hr with hr | hr
          · exact ⟨attrs, x, hr⟩
          · exact h2 r hr
        · simp only [sumMeas, List.map_cons, List.sum_cons] at h3 ⊢
          linarith

theorem measureStep_append (fv : List String) (m : ℚ) :
    ∀ b : List Row, (∀ e ∈ b, List.dropLast e ≠ fv.map Cell.s) →
      measureStep b fv m = some (b ++ [fv.map Cell.s ++ [Cell.q m]]) := by
  intro b
  induction b with
  | nil => intro _; rfl
  | cons e rest ih =>
      intro h
      have he := h e (List.mem_cons_self _ _)
      have hrest := ih (fun e' he' => h e' (List.mem_cons_of_mem _ he'))
      simp [measureStep, he, hrest]

theorem measureStep_accumulate (rest : List Row) (fv : List String) (x m : ℚ) :
    measureStep ((fv.map Cell.s ++ [Cell.q x]) :: rest) fv m =
      some ((fv.map Cell.s ++ [Cell.q (x + m)]) :: rest) := by
  simp [measureStep, List.dropLast_concat, addLast, List.getLast?_concat]

/-! ### Pass-level lemmas -/

/-- Generic accumulator lemma for a whole cursor pass: if each record's
bucket transformation succeeds on well-formed buckets and adds `δ r` to a
valuation, then the pass succeeds and each feature's bucket valuation grows
by the sum of `δ` over the records routed to it. -/
theorem processRecords_acc {A : Type} [AddCommMonoid A]
    {θ : String} {loc : Loc} {gt method : String}
    {G : JRecord → List Row → Option (List Row)} {P : List Row → Prop}
    {val : List Row → A} {δ : JRecord → A}
    (hrec : ∀ d r, recordStep θ loc gt method d r = updateBucket d r.fid θ loc (G r))
    (hstep : ∀ r b, P b → ∃ b', G r b = some b' ∧ P b' ∧ val b' = val b + δ r) :
    ∀ (records : List JRecord) (d : OutputDict),
      (∀ r ∈ records, ∃ b, lookupBucket d r.fid θ loc = some b) →
      (∀ f b, lookupBucket d f θ loc = some b → P b) →
      (processRecords θ loc gt method d records).2 = false ∧
      ∀ f b, lookupBucket d f θ loc = some b →
        ∃ b', lookupBucket (processRecords θ loc gt method d records).1 f θ loc = some b' ∧
          P b' ∧ val b' = val b + ((records.filter (fun r => r.fid == f)).map δ).sum := by
  intro records
  induction records with
  | nil =>
      intro d _ hwf
      refine ⟨rfl, ?_⟩
      intro f b hb
      exact ⟨b, hb, hwf f b hb, by simp⟩
  | cons r rs ih =>
      intro d hft hwf
      obtain ⟨br, hbr⟩ := hft r (List.mem_cons_self _ _)
      obtain ⟨br', hGr, hPbr', hvb'⟩ := hstep r br (hwf _ _ hbr)
      obtain ⟨d₁, hd₁⟩ := @updateBucket_of_lookup d r.fid θ loc (G r) br br' hbr hGr
      obtain ⟨b0, b0', hb0, hg0, hb0', hframe⟩ := updateBucket_spec hd₁
      obtain rfl : b0 = br := Option.some.inj (hb0.symm.trans hbr)
      obtain rfl : b0' = br' := Option.some.inj (hg0.symm.trans hGr)
      have hstep_eq : recordStep θ loc gt method d r = some d₁ := by
        rw [hrec d r]
        exact hd₁
      have hproc : processRecords θ loc gt method d (r :: rs) =
          processRecords θ loc gt method d₁ rs := by
        simp [processRecords, hstep_eq]
      have hft₁ : ∀ r' ∈ rs, ∃ b, lookupBucket d₁ r'.fid θ loc = some b := by
        intro r' hr'
        by_cases hf : r'.fid = r.fid
        · exact ⟨b0', by rw [hf]; exact hb0'⟩
        · obtain ⟨b, hb⟩ := hft r' (List.mem_cons_of_mem _ hr')
          exact ⟨b, by rw [hframe r'.fid θ loc (fun hc => hf hc.1)]; exact hb⟩
      have hwf₁ : ∀ f b, lookupBucket d₁ f θ loc = some b → P b := by
        intro f b hb
        by_cases hf : f = r.fid
        · subst hf
          obtain rfl : b0' = b := Option.some.inj (hb0'.symm.trans hb)
          exact hPbr'
        · rw [hframe f θ loc (fun hc => hf hc.1)] at hb
          exact hwf f b hb
      obtain ⟨hflag, hsum⟩ := ih d₁ hft₁ hwf₁
      rw [hproc]
      refine ⟨hflag, ?_⟩
      intro f b hb
      by_cases hf : f = r.fid
      · subst hf
        obtain rfl : b = b0 := Option.some.inj (hb.symm.trans hbr)
        obtain ⟨b₂, hb₂, hP₂, hv₂⟩ := hsum r.fid b0' hb0'
        refine ⟨b₂, hb₂, hP₂, ?_⟩
        rw [hv₂, hvb']
        have hfc : List.filter (fun r' => r'.fid == r.fid) (r :: rs) =
            r :: List.filter (fun r' => r'.fid == r.fid) rs := by
          simp [List.filter_cons]
        rw [hfc, List.map_cons, List.sum_cons, add_assoc]
      · obtain ⟨b₂, hb₂, hP₂, hv₂⟩ :=
          hsum f b (by rw [hframe f θ loc (fun hc => hf hc.1)]; exact hb)
        refine ⟨b₂, hb₂, hP₂, ?_⟩
        rw [hv₂]
        have hne : (r.fid == f) = false := by
          simp only [beq_eq_false_iff_ne, ne_eq]
          exact fun hc => hf hc.symm
        have hfc : List.filter (fun r' => r'.fid == f) (r :: rs) =
            List.filter (fun r' => r'.fid == f) rs := by
          simp [List.filter_cons, hne]
        rw [hfc]

/-- A `PRESENT` pass keeps every bucket of the dictionary duplicate-free,
at every intermediate state. -/
theorem processRecords_nodup {θ : String} {loc : Loc} {gt method : String}
    (hm : pyUpper method = "PRESENT") :
    ∀ (records : List JRecord) (d : OutputDict),
      (∀ f θ' loc' b, lookupBucket d f θ' loc' = some b → b.Nodup) →
      ∀ f θ' loc' b,
        lookupBucket (processRecords θ loc gt method d records).1 f θ' loc' = some b →
          b.Nodup := by
  intro records
  induction records with
  | nil =>
      intro d h
      simpa [processRecords] using h
  | cons r rs ih =>
      intro d h
      have hrs : recordStep θ loc gt method d r =
          updateBucket d r.fid θ loc (fun b => some (presentStep b (cleanFields r.fields))) := by
        simp [recordStep, hm]
      cases hub : updateBucket d r.fid θ loc
          (fun b => some (presentStep b (cleanFields r.fields))) with
      | none =>
          have hpr : processRecords θ loc gt method d (r :: rs) = (d, true) := by
            simp [processRecords, hrs, hub]
          rw [hpr]
          exact h
      | some d₁ =>
          have hpr : processRecords θ loc gt method d (r :: rs) =
              processRecords θ loc gt method d₁ rs := by
            simp [processRecords, hrs, hub]
          rw [hpr]
          apply ih d₁
          intro f θ' loc' b hb
          obtain ⟨b0, b0', hb0, hg0, hb0', hframe⟩ := updateBucket_spec hub
          by_cases hc : f = r.fid ∧ θ' = θ ∧ loc' = loc
          · obtain ⟨rfl, rfl, rfl⟩ := hc
            obtain rfl : b0' = b := Option.some.inj (hb0'.symm.trans hb)
            have hps : presentStep b0 (cleanFields r.fields) = b0' := Option.some.inj hg0
            rw [← hps]
            exact presentStep_nodup (h _ _ _ _ hb0)
          · rw [hframe f θ' loc' hc] at hb
            exact h f θ' loc' b hb

/-- A single record only ever touches the bucket of the pass's own theme
and location. -/
theorem recordStep_frame {θ : String} {loc : Loc} {gt method : String} {d d' : OutputDict}
    {r : JRecord} (h : recordStep θ loc gt method d r = some d') :
    ∀ f θ' loc', θ' ≠ θ ∨ loc' ≠ loc →
      lookupBucket d' f θ' loc' = lookupBucket d f θ' loc' := by
  intro f θ' loc' hne
  have hnc : ∀ {fid0 : Int}, ¬ (f = fid0 ∧ θ' = θ ∧ loc' = loc) := by
    intro fid0 hc
    rcases hne with hne | hne
    · exact hne hc.2.1
    · exact hne hc.2.2
  unfold recordStep at h
  by_cases h1 : pyUpper method = "PRESENT"
  · rw [if_pos h1] at h
    obtain ⟨-, -, -, -, -, hframe⟩ := updateBucket_spec h
    exact hframe f θ' loc' hnc
  · rw [if_neg h1] at h
    by_cases h2 : pyUpper method = "COUNT"
    · rw [if_pos h2] at h
      obtain ⟨-, -, -, -, -, hframe⟩ := updateBucket_spec h
      exact hframe f θ' loc' hnc
    · rw [if_neg h2] at h
      by_cases h3 : pyUpper method = "MEASURE"
      · rw [if_pos h3] at h
        obtain ⟨m, -, hub⟩ := Option.bind_eq_some.mp h
        obtain ⟨-, -, -, -, -, hframe⟩ := updateBucket_spec hub
        exact hframe f θ' loc' hnc
      · rw [if_neg h3] at h
        obtain rfl : d = d' := Option.some.inj h
        rfl

theorem processRecords_frame {θ : String} {loc : Loc} {gt method : String} :
    ∀ (records : List JRecord) (d : OutputDict) (f : Int) (θ' : String) (loc' : Loc),
      θ' ≠ θ ∨ loc' ≠ loc →
      lookupBucket (processRecords θ loc gt method d records).1 f θ' loc' =
        lookupBucket d f θ' loc' := by
  intro records
  induction records with
  | nil =>
      intro d f θ' loc' _
      rfl
  | cons r rs ih =>
      intro d f θ' loc' hne
      cases hr : recordStep θ loc gt method d r with
      | none => simp [processRecords, hr]
      | some d₁ =>
          have hpr : processRecords θ loc gt method d (r :: rs) =
              processRecords θ loc gt method d₁ rs := by
            simp [processRecords, hr]
          rw [hpr, ih d₁ f θ' loc' hne, recordStep_frame hr f θ' loc' hne]

theorem process_spatial_intersection_frame {e : ReftabEntry} {loc : Loc}
    {spatial : Except String (List JRecord)} {d : OutputDict} :
    ∀ f θ' loc', θ' ≠ e.theme_name ∨ loc' ≠ loc →
      lookupBucket (process_spatial_intersection e loc spatial d).1 f θ' loc' =
        lookupBucket d f θ' loc' := by
  intro f θ' loc' hne
  unfold process_spatial_intersection
  cases spatial with
  | error msg => rfl
  | ok records =>
      by_cases hrec : records.isEmpty
      · simp [hrec]
      · simp only [hrec, if_false]
        exact processRecords_frame records d f θ' loc' hne

theorem process_intersections_theme_frame {e : ReftabEntry}
    {sp sb : Except String (List JRecord)} {d : OutputDict} :
    ∀ f θ' loc', θ' ≠ e.theme_name →
      lookupBucket (process_intersections e sp sb d).1 f θ' loc' =
        lookupBucket d f θ' loc' := by
  intro f θ' loc' hne
  unfold process_intersections
  by_cases hb : 0 < e.buffer_distance
  · simp only [hb, if_true]
    rw [process_spatial_intersection_frame f θ' loc' (Or.inl hne),
      process_spatial_intersection_frame f θ' loc' (Or.inl hne)]
  · simp only [hb, if_false]
    exact process_spatial_intersection_frame f θ' loc' (Or.inl hne)

/-- With the polygon pass failing, a layer's polygon buckets are untouched
(the buffer pass writes only buffer buckets). -/
theorem process_intersections_error_poly {e : ReftabEntry} {msg : String}
    {sb : Except String (List JRecord)} {d : OutputDict} :
    ∀ f θ', lookupBucket (process_intersections e (.error msg) sb d).1 f θ' .in_polygon =
      lookupBucket d f θ' .in_polygon := by
  intro f θ'
  unfold process_intersections
  by_cases hb : 0 < e.buffer_distance
  · simp only [hb, if_true]
    rw [process_spatial_intersection_frame f θ' Loc.in_polygon (Or.inr (by simp))]
    rfl
  · simp only [hb, if_false]
    rfl

theorem processAllLayers_frame :
    ∀ (entries : List (String × ReftabEntry)) (spatial : String → Loc → Except String (List JRecord))
      (d : OutputDict) (f : Int) (θ' : String) (loc' : Loc),
      (∀ p ∈ entries, (p : String × ReftabEntry).2.theme_name ≠ θ') →
      lookupBucket (processAllLayers entries spatial d) f θ' loc' =
        lookupBucket d f θ' loc' := by
  intro entries
  induction entries with
  | nil =>
      intro spatial d f θ' loc' _
      rfl
  | cons p rest ih =>
      intro spatial d f θ' loc' h
      have hstep : processAllLayers (p :: rest) spatial d =
          processAllLayers rest spatial
            ((process_intersections p.2 (spatial p.1 .in_polygon) (spatial p.1 .in_buffer) d).1) := by
        simp [processAllLayers]
      rw [hstep, ih _ _ _ _ _ (fun q hq => h q (List.mem_cons_of_mem _ hq)),
        process_intersections_theme_frame f θ' loc' (h p (List.mem_cons_self _ _)).symm]

/-! ### Empty-input preservation (for the zero-feature run) -/

theorem recordStep_keeps_empty {θ : String} {loc : Loc} {gt method : String} {r : JRecord} :
    recordStep θ loc gt method [] r = none ∨ recordStep θ loc gt method [] r = some [] := by
  unfold recordStep
  by_cases h1 : pyUpper method = "PRESENT"
  · rw [if_pos h1]
    exact Or.inl rfl
  · rw [if_neg h1]
    by_cases h2 : pyUpper method = "COUNT"
    · rw [if_pos h2]
      exact Or.inl rfl
    · rw [if_neg h2]
      by_cases h3 : pyUpper method = "MEASURE"
      · rw [if_pos h3]
        by_cases hg : gt = "POLYGON"
        · simp [hg, updateBucket, aupdateO]
        · by_cases hg2 : gt = "POLYLINE"
          · simp [hg, hg2, updateBucket, aupdateO]
          · simp [hg, hg2]
      · rw [if_neg h3]
        exact Or.inr rfl

theorem processRecords_keeps_empty {θ : String} {loc : Loc} {gt method : String} :
    ∀ records : List JRecord, (processRecords θ loc gt method [] records).1 = [] := by
  intro records
  induction records with
  | nil => rfl
  | cons r rs ih =>
      rcases @recordStep_keeps_empty θ loc gt method r with h | h
      · simp [processRecords, h]
      · simp [processRecords, h, ih]

theorem processAllLayers_keeps_empty
    (entries : List (String × ReftabEntry))
    (spatial : String → Loc → Except String (List JRecord)) :
    processAllLayers entries spatial [] = [] := by
  induction entries with
  | nil => rfl
  | cons p rest ih =>
      have hpsi : ∀ (e : ReftabEntry) (loc : Loc) (sp : Except String (List JRecord)),
          (process_spatial_intersection e loc sp []).1 = [] := by
        intro e loc sp
        cases sp with
        | error msg => rfl
        | ok records =>
            by_cases hrec : records.isEmpty
            · simp [process_spatial_intersection, hrec]
            · simp [process_spatial_intersection, hrec, processRecords_keeps_empty]
      have hpi : ∀ (e : ReftabEntry) (sp sb : Except String (List JRecord)),
          (process_intersections e sp sb []).1 = [] := by
        intro e sp sb
        unfold process_intersections
        by_cases hb : 0 < e.buffer_distance
        · simp [hb, hpsi]
        · simp [hb, hpsi]
      have hstep : processAllLayers (p :: rest) spatial [] =
          processAllLayers rest spatial
            ((process_intersections p.2 (spatial p.1 .in_polygon) (spatial p.1 .in_buffer) []).1) := by
        simp [processAllLayers]
      rw [hstep, hpi]
      exact ih

/-! ### Structure preservation through the intersection passes -/

/-- `d'` has the same key skeleton as `d`: same feature keys in the same
order, and each feature's theme keys unchanged. -/
def StructLe (d' d : OutputDict) : Prop :=
  d'.map Prod.fst = d.map Prod.fst ∧
    ∀ p ∈ d', ∃ q ∈ d, (p : Int × FeatureData).1 = q.1 ∧ p.2.map Prod.fst = q.2.map Prod.fst

theorem StructLe.refl (d : OutputDict) : StructLe d d :=
  ⟨rfl, fun p hp => ⟨p, hp, rfl, rfl⟩⟩

theorem StructLe.trans {d₂ d₁ d : OutputDict} (h₂ : StructLe d₂ d₁) (h₁ : StructLe d₁ d) :
    StructLe d₂ d := by
  refine ⟨h₂.1.trans h₁.1, ?_⟩
  intro p hp
  obtain ⟨q, hq, hq1, hq2⟩ := h₂.2 p hp
  obtain ⟨q', hq', hq1', hq2'⟩ := h₁.2 q hq
  exact ⟨q', hq', hq1.trans hq1', hq2.trans hq2'⟩

theorem updateBucket_structLe {d d' : OutputDict} {fid : Int} {θ0 : String} {loc0 : Loc}
    {g : List Row → Option (List Row)} (h : updateBucket d fid θ0 loc0 g = some d') :
    StructLe d' d := by
  obtain ⟨h1, h2⟩ := updateBucket_struct h
  exact ⟨h1, h2⟩

theorem recordStep_structLe {θ : String} {loc : Loc} {gt method : String} {d d' : OutputDict}
    {r : JRecord} (h : recordStep θ loc gt method d r = some d') : StructLe d' d := by
  unfold recordStep at h
  by_cases h1 : pyUpper method = "PRESENT"
  · rw [if_pos h1] at h
    exact updateBucket_structLe h
  · rw [if_neg h1] at h
    by_cases h2 : pyUpper method = "COUNT"
    · rw [if_pos h2] at h
      exact updateBucket_structLe h
    · rw [if_neg h2] at h
      by_cases h3 : pyUpper method = "MEASURE"
      · rw [if_pos h3] at h
        obtain ⟨m, -, hub⟩ := Option.bind_eq_some.mp h
        exact updateBucket_structLe hub
      · rw [if_neg h3] at h
        obtain rfl : d = d' := Option.some.inj h
        exact StructLe.refl d

theorem processRecords_structLe {θ : String} {loc : Loc} {gt method : String} :
    ∀ (records : List JRecord) (d : OutputDict),
      StructLe (processRecords θ loc gt method d records).1 d := by
  intro records
  induction records with
  | nil => intro d; exact StructLe.refl d
  | cons r rs ih =>
      intro d
      cases hr : recordStep θ loc gt method d r with
      | none =>
          simp only [processRecords, hr]
          exact StructLe.refl d
      | some d₁ =>
          simp only [processRecords, hr]
          exact (ih d₁).trans (recordStep_structLe hr)

theorem processAllLayers_structLe
    (entries : List (String × ReftabEntry))
    (spatial : String → Loc → Except String (List JRecord)) :
    ∀ d : OutputDict, StructLe (processAllLayers entries spatial d) d := by
  induction entries with
  | nil => intro d; exact StructLe.refl d
  | cons p rest ih =>
      intro d
      have hpsi : ∀ (e : ReftabEntry) (loc : Loc) (sp : Except String (List JRecord))
          (d₀ : OutputDict), StructLe (process_spatial_intersection e loc sp d₀).1 d₀ := by
        intro e loc sp d₀
        cases sp with
        | error msg => exact StructLe.refl d₀
        | ok records =>
            by_cases hrec : records.isEmpty
            · simp only [process_spatial_intersection, hrec, if_true]
              exact StructLe.refl d₀
            · simp only [process_spatial_intersection, hrec, if_false]
              exact processRecords_structLe records d₀
      have hpi : ∀ (e : ReftabEntry) (sp sb : Except String (List JRecord)) (d₀ : OutputDict),
          StructLe (process_intersections e sp sb d₀).1 d₀ := by
        intro e sp sb d₀
        unfold process_intersections
        by_cases hb : 0 < e.buffer_distance
        · simp only [hb, if_true]
          exact (hpsi _ _ _ _).trans (hpsi _ _ _ _)
        · simp only [hb, if_false]
          exact hpsi _ _ _ _
      have hstep : processAllLayers (p :: rest) spatial d =
          processAllLayers rest spatial
            ((process_intersections p.2 (spatial p.1 .in_polygon) (spatial p.1 .in_buffer) d).1) := by
        simp [processAllLayers]
      rw [hstep]
      exact (ih _).trans (hpi _ _ _ _)

/-! ### Key folds: insertion order with first-occurrence deduplication -/

/-- The key sequence a Python dict ends up with after inserting `ks` in
order: first occurrences, in encounter order. -/
def firstOccurKeys (ks : List K) : List K :=
  ks.foldl (fun acc k => if k ∈ acc then acc else acc ++ [k]) []

theorem foldl_pyInsert_keys {v : B} :
    ∀ (ks : List K) (d₀ : List (K × B)),
      ((ks.foldl (fun d k => pyInsert d k v) d₀).map Prod.fst) =
        ks.foldl (fun acc k => if k ∈ acc then acc else acc ++ [k]) (d₀.map Prod.fst) := by
  intro ks
  induction ks with
  | nil => intro d₀; rfl
  | cons a rest ih =>
      intro d₀
      simp only [List.foldl_cons]
      rw [ih (pyInsert d₀ a v), keysOf_pyInsert]

theorem foldl_pyInsert_values {v : B} :
    ∀ (ks : List K) (d₀ : List (K × B)), (∀ q ∈ d₀, (q : K × B).2 = v) →
      ∀ q ∈ ks.foldl (fun d k => pyInsert d k v) d₀, (q : K × B).2 = v := by
  intro ks
  induction ks with
  | nil => intro d₀ h; exact h
  | cons a rest ih =>
      intro d₀ h
      simp only [List.foldl_cons]
      refine ih (pyInsert d₀ a v) ?_
      intro q hq
      rcases pyInsert_mem hq with hq | hq
      · exact h q hq
      · rw [hq]

theorem mem_foldl_firstOccur {x : K} :
    ∀ (ks : List K) (acc : List K),
      (x ∈ ks.foldl (fun acc k => if k ∈ acc then acc else acc ++ [k]) acc) ↔
        x ∈ acc ∨ x ∈ ks := by
  intro ks
  induction ks with
  | nil => intro acc; simp
  | cons a rest ih =>
      intro acc
      simp only [List.foldl_cons]
      by_cases ha : a ∈ acc
      · rw [if_pos ha, ih]
        constructor
        · rintro (h | h)
          · exact Or.inl h
          · exact Or.inr (List.mem_cons_of_mem _ h)
        · rintro (h | h)
          · exact Or.inl h
          · rcases List.mem_cons.mp h with h | h
            · exact Or.inl (h ▸ ha)
            · exact Or.inr h
      · rw [if_neg ha, ih]
        simp only [List.mem_append, List.mem_singleton, List.mem_cons]
        tauto

theorem mem_firstOccurKeys {x : K} {ks : List K} : x ∈ firstOccurKeys ks ↔ x ∈ ks := by
  unfold firstOccurKeys
  rw [mem_foldl_firstOccur]
  simp

theorem nodup_foldl_firstOccur :
    ∀ (ks : List K) (acc : List K), acc.Nodup →
      (ks.foldl (fun acc k => if k ∈ acc then acc else acc ++ [k]) acc).Nodup := by
  intro ks
  induction ks with
  | nil => intro acc h; exact h
  | cons a rest ih =>
      intro acc h
      simp only [List.foldl_cons]
      by_cases ha : a ∈ acc
      · rw [if_pos ha]
        exact ih acc h
      · rw [if_neg ha]
        refine ih _ ?_
        simpa [List.nodup_append, ha] using h

theorem nodup_firstOccurKeys {ks : List K} : (firstOccurKeys ks).Nodup :=
  nodup_foldl_firstOccur ks [] List.nodup_nil

theorem firstOccurKeys_eq_nil {ks : List K} : firstOccurKeys ks = [] ↔ ks = [] := by
  constructor
  · intro h
    cases ks with
    | nil => rfl
    | cons a rest =>
        have : a ∈ firstOccurKeys (a :: rest) := mem_firstOccurKeys.mpr (List.mem_cons_self _ _)
        rw [h] at this
        cases this
  · intro h
    rw [h]
    rfl

theorem create_output_dict_keys (ids : List Int) (themes : List String) :
    (create_output_dict ids themes).map Prod.fst = firstOccurKeys ids := by
  unfold create_output_dict firstOccurKeys
  rw [foldl_pyInsert_keys]
  rfl

theorem create_output_dict_values (ids : List Int) (themes : List String) :
    ∀ q ∈ create_output_dict ids themes, (q : Int × FeatureData).2 = initFeatureData themes := by
  intro q hq
  exact foldl_pyInsert_values ids [] (by simp) q hq

theorem initFeatureData_keys (themes : List String) :
    (initFeatureData themes).map Prod.fst = firstOccurKeys themes := by
  unfold initFeatureData firstOccurKeys
  rw [foldl_pyInsert_keys]
  rfl

/-! ### CSV-writing lemmas -/

theorem themeLookup_carry {θ : String} :
    ∀ (entries : List (String × ReftabEntry)) (c : Option MB),
      c.isSome → (themeLookup entries θ c).isSome := by
  intro entries
  induction entries with
  | nil => intro c h; exact h
  | cons p rest ih =>
      intro c h
      unfold themeLookup
      simp only [List.foldl_cons]
      by_cases hp : p.2.theme_name = θ
      · rw [if_pos hp]
        exact ih _ rfl
      · rw [if_neg hp]
        exact ih c h

theorem themeLookup_isSome {θ : String} :
    ∀ (entries : List (String × ReftabEntry)) (c : Option MB),
      (∃ p ∈ entries, (p : String × ReftabEntry).2.theme_name = θ) →
      (themeLookup entries θ c).isSome := by
  intro entries
  induction entries with
  | nil =>
      rintro c ⟨p, hp, -⟩
      simp at hp
  | cons p rest ih =>
      rintro c ⟨q, hq, hqθ⟩
      unfold themeLookup
      simp only [List.foldl_cons]
      by_cases hp : p.2.theme_name = θ
      · rw [if_pos hp]
        exact themeLookup_carry rest _ rfl
      · rw [if_neg hp]
        rcases List.mem_cons.mp hq with hq | hq
        · exact absurd (hq ▸ hqθ) hp
        · exact ih c ⟨q, hq, hqθ⟩

theorem buildRow_some {reftab : List (String × ReftabEntry)} {fd : FeatureData} :
    ∀ (themes : List String) (acc : List String × Option MB),
      (∀ θ ∈ themes, ∃ p ∈ reftab, (p : String × ReftabEntry).2.theme_name = θ) →
      (∀ θ ∈ themes, θ ∈ fd.map Prod.fst) →
      ∃ out, themes.foldlM (fun acc θ => do
          let mb ← themeLookup reftab θ acc.2
          let ld ← alookup fd θ
          let cell := results_to_string ld.in_polygon ld.in_buffer mb.method
            mb.buffer_distance mb.geometry_type
          pure (acc.1 ++ [cell.getD emptyStr], some mb)) acc = some out ∧
        ∃ t, out.1 = acc.1 ++ t := by
  intro themes
  induction themes with
  | nil =>
      intro acc _ _
      exact ⟨acc, rfl, [], by simp⟩
  | cons θ rest ih =>
      intro acc hmatch hkeys
      obtain ⟨mb, hmb⟩ := Option.isSome_iff_exists.mp
        (themeLookup_isSome reftab acc.2 (hmatch θ (List.mem_cons_self _ _)))
      obtain ⟨ld, hld⟩ := alookup_isSome_of_mem_keys (hkeys θ (List.mem_cons_self _ _))
      simp only [List.foldlM_cons, hmb, hld, Option.bind_eq_bind, Option.some_bind]
      obtain ⟨out, hout, t, ht⟩ := ih _ (fun θ' h => hmatch θ' (List.mem_cons_of_mem _ h))
        (fun θ' h => hkeys θ' (List.mem_cons_of_mem _ h))
      refine ⟨out, hout,
        ((results_to_string ld.in_polygon ld.in_buffer mb.method mb.buffer_distance
          mb.geometry_type).getD emptyStr) :: t, ?_⟩
      rw [ht]
      simp

theorem csvLoop_rows {reftab : List (String × ReftabEntry)} {themes : List String}
    (hmatch : ∀ θ ∈ themes, ∃ p ∈ reftab, (p : String × ReftabEntry).2.theme_name = θ) :
    ∀ (features : List (Int × FeatureData)) (mb : Option MB) (acc : List (List String)),
      (∀ p ∈ features, ∀ θ ∈ themes, θ ∈ (p : Int × FeatureData).2.map Prod.fst) →
      (csvLoop reftab themes features mb acc).2 = false ∧
      ∃ rows, (csvLoop reftab themes features mb acc).1 = acc ++ rows ∧
        rows.map (fun r => r.headD emptyStr) = features.map (fun p => toString p.1) := by
  intro features
  induction features with
  | nil =>
      intro mb acc _
      exact ⟨rfl, [], by simp [csvLoop], rfl⟩
  | cons p rest ih =>
      intro mb acc hkeys
      obtain ⟨fid, fd⟩ := p
      obtain ⟨out, hout, t, ht⟩ :=
        @buildRow_some reftab fd themes ([toString fid], mb) hmatch
          (hkeys (fid, fd) (List.mem_cons_self _ _))
      have hbr : buildRow reftab themes fid fd mb = some out := hout
      have hcl : csvLoop reftab themes ((fid, fd) :: rest) mb acc =
          csvLoop reftab themes rest out.2 (acc ++ [out.1]) := by
        cases out with
        | mk row mb' => simp [csvLoop, hbr]
      obtain ⟨hflag, rows, hrows, hheads⟩ :=
        ih out.2 (acc ++ [out.1]) (fun q hq => hkeys q (List.mem_cons_of_mem _ hq))
      rw [hcl]
      refine ⟨hflag, out.1 :: rows, by simp [hrows], ?_⟩
      simp only [List.map_cons, hheads, List.map_cons]
      congr 1
      rw [ht]
      rfl

/-! ### Loader lemmas -/

/-- Reachability invariant of the loader state: the Python local
`layer_name` can only be unassigned while the values cache is empty. -/
def ConfigInv (st : ConfigState) : Prop := st.layer_name = none → st.values_cache = []

theorem loadStep_disabled {g i : String} {de : String → String} {st : ConfigState}
    {row : ReftabRow} (hc : ¬ pyUpper row.requires_check = "Y") :
    loadStep g i de st row = some st := by
  simp [loadStep, hc]

theorem loadStep_enabled {g i : String} {de : String → String} {st : ConfigState}
    {row : ReftabRow} (hc : pyUpper row.requires_check = "Y") (hinv : ConfigInv st) :
    ∃ st' ln, loadStep g i de st row = some st' ∧ ConfigInv st' ∧
      st'.reftab_dict = pyInsert st.reftab_dict row.fc_name
        { theme_name := row.theme_name, cached_fc := ln,
          geometry_type := pyUpper (de ln), method := row.method,
          definition_query := cleanQuery row.query,
          buffer_distance := row.buffer_distance,
          repfld1 := row.repfld1, repfld2 := row.repfld2,
          repfld3 := row.repfld3, repfld4 := row.repfld4 } := by
  unfold loadStep
  rw [if_pos hc]
  by_cases hm : alookup st.values_cache row.fc_name = none
  · rw [if_pos hm]
    refine ⟨_, row.fc_name ++ "_" ++ i, rfl, ?_, rfl⟩
    intro h
    cases h
  · rw [if_neg hm]
    obtain ⟨ln₀, hln⟩ : ∃ ln₀, st.layer_name = some ln₀ := by
      cases hl : st.layer_name with
      | none =>
          exfalso
          apply hm
          rw [hinv hl]
          rfl
      | some ln₀ => exact ⟨ln₀, rfl⟩
    rw [hln]
    refine ⟨_, ln₀, rfl, ?_, rfl⟩
    intro h
    cases h

theorem load_inv_total {g i : String} {de : String → String} :
    ∀ (rows : List ReftabRow) (st : ConfigState), ConfigInv st →
      ConfigInv (load_values_fcs g i de st rows).1 ∧
        (load_values_fcs g i de st rows).2 = false := by
  intro rows
  induction rows with
  | nil => intro st h; exact ⟨h, rfl⟩
  | cons row rest ih =>
      intro st h
      by_cases hc : pyUpper row.requires_check = "Y"
      · obtain ⟨st', ln, hstep, hinv', -⟩ := @loadStep_enabled g i de st row hc h
        simp only [load_values_fcs, hstep]
        exact ih st' hinv'
      · simp only [load_values_fcs, @loadStep_disabled g i de st row hc]
        exact ih st h

theorem load_skip {g i : String} {de : String → String} {f : String} :
    ∀ (rows : List ReftabRow) (st : ConfigState), ConfigInv st →
      (∀ row ∈ rows, pyUpper row.requires_check = "Y" → row.fc_name ≠ f) →
      alookup (load_values_fcs g i de st rows).1.reftab_dict f =
        alookup st.reftab_dict f := by
  intro rows
  induction rows with
  | nil => intro st _ _; rfl
  | cons row rest ih =>
      intro st h hno
      by_cases hc : pyUpper row.requires_check = "Y"
      · obtain ⟨st', ln, hstep, hinv', hdict⟩ := @loadStep_enabled g i de st row hc h
        simp only [load_values_fcs, hstep]
        rw [ih st' hinv' (fun r hr hcr => hno r (List.mem_cons_of_mem _ hr) hcr), hdict,
          alookup_pyInsert_other _ _ _ _ (fun he => hno row (List.mem_cons_self _ _) hc he.symm)]
      · simp only [load_values_fcs, @loadStep_disabled g i de st row hc]
        exact ih st h (fun r hr hcr => hno r (List.mem_cons_of_mem _ hr) hcr)

theorem load_provenance {g i : String} {de : String → String} :
    ∀ (rows : List ReftabRow) (st : ConfigState), ConfigInv st →
      ∀ p ∈ (load_values_fcs g i de st rows).1.reftab_dict,
        p ∈ st.reftab_dict ∨ ∃ row ∈ rows, pyUpper row.requires_check = "Y" ∧
          (p : String × ReftabEntry).1 = row.fc_name ∧ p.2.theme_name = row.theme_name := by
  intro rows
  induction rows with
  | nil => intro st _ p hp; exact Or.inl hp
  | cons row rest ih =>
      intro st h p hp
      by_cases hc : pyUpper row.requires_check = "Y"
      · obtain ⟨st', ln, hstep, hinv', hdict⟩ := @loadStep_enabled g i de st row hc h
        simp only [load_values_fcs, hstep] at hp
        rcases ih st' hinv' p hp with hmem | ⟨r, hr, hcr, h1, h2⟩
        · rw [hdict] at hmem
          rcases pyInsert_mem hmem with hmem | hmem
          · exact Or.inl hmem
          · refine Or.inr ⟨row, List.mem_cons_self _ _, hc, ?_, ?_⟩
            · rw [hmem]
            · rw [hmem]
        · exact Or.inr ⟨r, List.mem_cons_of_mem _ hr, hcr, h1, h2⟩
      · simp only [load_values_fcs, @loadStep_disabled g i de st row hc] at hp
        rcases ih st h p hp with hmem | ⟨r, hr, hcr, h1, h2⟩
        · exact Or.inl hmem
        · exact Or.inr ⟨r, List.mem_cons_of_mem _ hr, hcr, h1, h2⟩

theorem load_nodupKeys {g i : String} {de : String → String} :
    ∀ (rows : List ReftabRow) (st : ConfigState), ConfigInv st →
      ((st.reftab_dict.map Prod.fst).Nodup) →
      (((load_values_fcs g i de st rows).1.reftab_dict.map Prod.fst).Nodup) := by
  intro rows
  induction rows with
  | nil => intro st _ h; exact h
  | cons row rest ih =>
      intro st h hnd
      by_cases hc : pyUpper row.requires_check = "Y"
      · obtain ⟨st', ln, hstep, hinv', hdict⟩ := @loadStep_enabled g i de st row hc h
        simp only [load_values_fcs, hstep]
        refine ih st' hinv' ?_
        rw [hdict]
        exact pyInsert_nodupKeys hnd
      · simp only [load_values_fcs, @loadStep_disabled g i de st row hc]
        exact ih st h hnd

theorem load_append {g i : String} {de : String → String} :
    ∀ (xs ys : List ReftabRow) (st : ConfigState), ConfigInv st →
      load_values_fcs g i de st (xs ++ ys) =
        load_values_fcs g i de (load_values_fcs g i de st xs).1 ys := by
  intro xs
  induction xs with
  | nil => intro ys st _; rfl
  | cons row rest ih =>
      intro ys st h
      by_cases hc : pyUpper row.requires_check = "Y"
      · obtain ⟨st', ln, hstep, hinv', -⟩ := @loadStep_enabled g i de st row hc h
        simp only [List.cons_append, load_values_fcs, hstep]
        exact ih ys st' hinv'
      · simp only [List.cons_append, load_values_fcs, @loadStep_disabled g i de st row hc]
        exact ih ys st h

/-! ### V2008 trimming-loop lemmas -/

namespace V2008

theorem pickLongest_eq_none {attrs : List (List Char)} :
    pickLongest attrs = none ↔ attrs = [] := by
  cases attrs with
  | nil => simp [pickLongest]
  | cons a rest =>
      simp only [pickLongest]
      cases pickLongest rest with
      | none => simp
      | some p =>
          obtain ⟨pre, b, post⟩ := p
          by_cases h : a.length < b.length
          · simp [h]
          · simp [h]

theorem pickLongest_spec :
    ∀ {attrs : List (List Char)} {pre b post}, pickLongest attrs = some (pre, b, post) →
      attrs = pre ++ b :: post ∧ ∀ x ∈ attrs, (x : List Char).length ≤ b.length := by
  intro attrs
  induction attrs with
  | nil => intro pre b post h; cases h
  | cons a rest ih =>
      intro pre b post h
      simp only [pickLongest] at h
      cases hrest : pickLongest rest with
      | none =>
          rw [hrest] at h
          dsimp only at h
          obtain rfl : rest = [] := pickLongest_eq_none.mp hrest
          simp only [Option.some.injEq, Prod.mk.injEq] at h
          obtain ⟨h1, h2, h3⟩ := h
          subst h1 h2 h3
          refine ⟨rfl, ?_⟩
          intro x hx
          rw [List.mem_singleton] at hx
          rw [hx]
      | some p =>
          obtain ⟨pre', b', post'⟩ := p
          rw [hrest] at h
          dsimp only at h
          obtain ⟨heq, hbound⟩ := ih hrest
          by_cases hlt : a.length < b'.length
          · rw [if_pos hlt] at h
            simp only [Option.some.injEq, Prod.mk.injEq] at h
            obtain ⟨h1, h2, h3⟩ := h
            subst h1 h2 h3
            refine ⟨by rw [heq]; rfl, ?_⟩
            intro x hx
            rcases List.mem_cons.mp hx with hx | hx
            · rw [hx]; omega
            · exact hbound x hx
          · rw [if_neg hlt] at h
            simp only [Option.some.injEq, Prod.mk.injEq] at h
            obtain ⟨h1, h2, h3⟩ := h
            subst h1 h2 h3
            refine ⟨rfl, ?_⟩
            intro x hx
            rcases List.mem_cons.mp hx with hx | hx
            · rw [hx]
            · exact le_trans (hbound x hx) (by omega)

theorem endsWithEllipsis_append (y : List Char) :
    endsWithEllipsis (y ++ ellipsisChars) = true := by
  unfold endsWithEllipsis
  have h3 : (y ++ ellipsisChars).length - 3 = y.length := by
    simp [ellipsisChars]
  rw [h3, List.drop_left]
  simp

theorem trimOne_parts (a : List Char) :
    ∃ y, trimOne a = y ++ ellipsisChars := ⟨_, rfl⟩

theorem trimOne_ends (a : List Char) : endsWithEllipsis (trimOne a) = true := by
  obtain ⟨y, hy⟩ := trimOne_parts a
  rw [hy]
  exact endsWithEllipsis_append y

theorem trimOne_length_of_ends {a : List Char} (h4 : 4 ≤ a.length)
    (he : endsWithEllipsis a = true) : (trimOne a).length = a.length - 1 := by
  unfold trimOne
  rw [if_pos he]
  simp only [List.length_append, List.length_take, ellipsisChars, List.length_cons,
    List.length_nil]
  omega

theorem trimOne_length_of_not_ends {a : List Char} (h1 : 1 ≤ a.length)
    (he : endsWithEllipsis a = false) : (trimOne a).length = a.length + 2 := by
  unfold trimOne
  rw [if_neg (by rw [he]; exact Bool.false_ne_true)]
  simp only [List.length_append, List.length_take, ellipsisChars, List.length_cons,
    List.length_nil]
  omega

/-- The count of attributes not yet ending in an ellipsis. -/
def countNE (attrs : List (List Char)) : Nat :=
  (attrs.filter (fun a => ! endsWithEllipsis a)).length

/-- Termination measure of the trimming loop. -/
def mu (attrs : List (List Char)) : Nat := totalLen attrs + 3 * countNE attrs

theorem totalLen_replace (pre post : List (List Char)) (x y : List Char) :
    totalLen (pre ++ y :: post) + x.length = totalLen (pre ++ x :: post) + y.length := by
  simp only [totalLen, List.map_append, List.sum_append, List.map_cons, List.sum_cons,
    List.length_append, List.length_cons]
  omega

theorem countNE_split (pre post : List (List Char)) (x : List Char) :
    countNE (pre ++ x :: post) =
      countNE pre + (if endsWithEllipsis x then 0 else 1) + countNE post := by
  simp only [countNE, List.filter_append, List.filter_cons, List.length_append]
  cases he : endsWithEllipsis x <;> simp [he]
  omega

theorem max_len_ge {attrs : List (List Char)} {pre b post}
    (hpick : pickLongest attrs = some (pre, b, post))
    (hlen : attrs.length ≤ 4) (htot : 200 < totalLen attrs) : 48 ≤ b.length := by
  obtain ⟨-, hbound⟩ := pickLongest_spec hpick
  have hsum : (attrs.map List.length).sum ≤ attrs.length * b.length := by
    have := List.sum_le_card_nsmul (attrs.map List.length) b.length (by
      intro x hx
      obtain ⟨a, ha, rfl⟩ := List.mem_map.mp hx
      exact hbound a ha)
    simpa [smul_eq_mul] using this
  have h4 : attrs.length * b.length ≤ 4 * b.length := Nat.mul_le_mul_right _ hlen
  have ht : totalLen attrs = (attrs.map List.length).sum + 3 * (attrs.length - 1) := rfl
  omega

theorem trimStep_mu {attrs : List (List Char)} (hlen : attrs.length ≤ 4)
    (htot : 200 < totalLen attrs) :
    mu (trimStep attrs) < mu attrs ∧ (trimStep attrs).length = attrs.length := by
  have hne : attrs ≠ [] := by
    intro h
    rw [h] at htot
    simp [totalLen] at htot
  obtain ⟨⟨pre, b, post⟩, hpick⟩ : ∃ p, pickLongest attrs = some p := by
    cases hp : pickLongest attrs with
    | none => exact absurd (pickLongest_eq_none.mp hp) hne
    | some p => exact ⟨p, rfl⟩
  obtain ⟨heq, -⟩ := pickLongest_spec hpick
  have hb : 48 ≤ b.length := max_len_ge hpick hlen htot
  have hstep : trimStep attrs = pre ++ trimOne b :: post := by
    simp [trimStep, hpick]
  refine ⟨?_, by rw [hstep, heq]; simp⟩
  rw [hstep, heq]
  have hrep := totalLen_replace pre post b (trimOne b)
  have hsx := countNE_split pre post b
  have hsy := countNE_split pre post (trimOne b)
  have hey : endsWithEllipsis (trimOne b) = true := trimOne_ends b
  cases he : endsWithEllipsis b with
  | true =>
      have hl : (trimOne b).length = b.length - 1 := trimOne_length_of_ends (by omega) he
      simp only [he, if_true] at hsx
      simp only [hey, if_true] at hsy
      unfold mu
      omega
  | false =>
      have hl : (trimOne b).length = b.length + 2 := trimOne_length_of_not_ends (by omega) he
      simp only [he, Bool.false_eq_true, if_false] at hsx
      simp only [hey, if_true] at hsy
      unfold mu
      omega

theorem trimLoop_le :
    ∀ (fuel : Nat) (attrs : List (List Char)), attrs.length ≤ 4 → mu attrs < fuel →
      totalLen (trimLoop fuel attrs) ≤ 200 := by
  intro fuel
  induction fuel with
  | zero =>
      intro attrs _ h
      exact absurd h (Nat.not_lt_zero _)
  | succ n ih =>
      intro attrs hlen hmu
      unfold trimLoop
      by_cases htot : 200 < totalLen attrs
      · rw [if_pos htot]
        obtain ⟨hdec, hkeep⟩ := trimStep_mu hlen htot
        exact ih _ (hkeep ▸ hlen) (by omega)
      · rw [if_neg htot]
        omega

/-- The V2008 capping loop always lands at the configured total bound for
the at-most-four report fields. -/
theorem capAttrs_le {attrs : List (List Char)} (hlen : attrs.length ≤ 4) :
    totalLen (capAttrs attrs) ≤ 200 := by
  apply trimLoop_le _ _ hlen
  have hc : countNE attrs ≤ attrs.length := List.length_filter_le _ _
  unfold mu
  omega

end V2008

/-! ### Formatter lemmas -/

theorem locationOutput_allEmpty {vs0 : Option String} {rows : List Row}
    {method gt : String} (h : ∀ r ∈ rows, r = []) :
    locationOutput vs0 rows method gt = some (["Nil"], vs0) := by
  have hall : rows.all (fun r => r.isEmpty) = true := by
    rw [List.all_eq_true]
    intro r hr
    rw [h r hr]
    rfl
  simp [locationOutput, hall]

theorem polySection_allEmpty {lp : List Row} {method gt : String}
    (h : ∀ r ∈ lp, r = []) :
    polySection lp method gt = some ("In polygon: Nil") := by
  rw [polySection, locationOutput_allEmpty h]
  rfl

theorem results_to_string_nobuffer {lp lb : List Row} {method : String} {d : Int}
    {gt : String} (hd : d ≤ 0) :
    results_to_string lp lb method d gt = polySection lp method gt := by
  have hnd : ¬ 0 < d := by omega
  simp only [results_to_string, polySection, hnd, if_false]

theorem results_to_string_buffer_decomp {lp lb : List Row} {method : String} {d : Int}
    {gt : String} (hd : 0 < d) {s : String}
    (h : results_to_string lp lb method d gt = some s) :
    ∃ p q, s = p ++ (crlf ++ "In " ++ toString d ++ "m buffer:") ++ q ∧
      polySection lp method gt = some p := by
  unfold results_to_string at h
  cases hlo : locationOutput none lp method gt with
  | none =>
      rw [hlo] at h
      cases h
  | some po =>
      rw [hlo] at h
      simp only [Option.bind_eq_bind, Option.some_bind, hd, if_true] at h
      cases hbo : locationOutput po.2 lb method gt with
      | none =>
          rw [hbo] at h
          cases h
      | some bo =>
          rw [hbo] at h
          simp only [Option.some_bind] at h
          cases hph : po.1.head? with
          | none =>
              rw [hph] at h
              cases h
          | some hp =>
              rw [hph] at h
              simp only [Option.some_bind] at h
              cases hbh : bo.1.head? with
              | none =>
                  rw [hbh] at h
                  cases h
              | some hb =>
                  rw [hbh] at h
                  simp only [Option.some_bind, Option.pure_def, Option.some.injEq] at h
                  refine ⟨"In polygon:" ++ (if hp = "Nil" then " " else crlf) ++ joinCrlf po.1,
                    (if hb = "Nil" then " " else crlf) ++ joinCrlf bo.1, h.symm, ?_⟩
                  unfold polySection
                  rw [hlo]
                  simp only [Option.bind_eq_bind, Option.some_bind, hph]
                  rfl

/-- Every bucket of the freshly initialised dictionary is empty. -/
theorem create_output_dict_bucket_empty {ids : List Int} {themes : List String} {f : Int}
    {θ : String} {loc : Loc} {b : List Row}
    (h : lookupBucket (create_output_dict ids themes) f θ loc = some b) : b = [] := by
  simp only [lookupBucket, Option.bind_eq_some, Option.map_eq_some'] at h
  obtain ⟨fd, hfd, ld, hld, hb⟩ := h
  have hfd' : fd = initFeatureData themes :=
    alookup_foldl_pyInsert_const ids [] f (fun w' hw' => by cases hw') hfd
  subst hfd'
  have hld' : ld = (⟨[], []⟩ : LocData) :=
    alookup_foldl_pyInsert_const themes [] θ (fun w' hw' => by cases hw') hld
  subst hld'
  cases loc <;> simpa [LocData.get] using hb.symm


/-! ## Claim theorems -/

/-- Claim C9: for every method, the cell formatter renders "Nil" for a
location section not only when the bucket's row list is empty but also
whenever every row in the list is an empty tuple (all reporting-field
values dropped during cleaning), treating such a non-empty list exactly as
if it were empty. -/
theorem C9_all_empty_rows_render_nil :
    (∀ (vs0 : Option String) (rows : List Row) (method gt : String),
      (∀ r ∈ rows, r = []) →
        locationOutput vs0 rows method gt = locationOutput vs0 [] method gt ∧
        locationOutput vs0 rows method gt = some (["Nil"], vs0)) ∧
    (∀ (lp lb : List Row) (method : String) (d : Int) (gt : String),
      (∀ r ∈ lp, r = []) →
        results_to_string lp lb method d gt = results_to_string [] lb method d gt) := by
  constructor
  · intro vs0 rows method gt h
    rw [locationOutput_allEmpty h, locationOutput_allEmpty (by simp)]
    exact ⟨rfl, rfl⟩
  · intro lp lb method d gt h
    unfold results_to_string
    rw [locationOutput_allEmpty h, locationOutput_allEmpty (by simp)]

/-- Witness for C9 at a concrete non-empty list of empty rows. -/
theorem C9_witness :
    (locationOutput none [[], []] ("PRESENT") ("POLYGON") =
        locationOutput none [] ("PRESENT") ("POLYGON") ∧
      locationOutput none [[], []] ("PRESENT") ("POLYGON") = some (["Nil"], none)) ∧
    results_to_string [[], []] [] ("PRESENT") 0 ("POLYGON") =
      results_to_string [] [] ("PRESENT") 0 ("POLYGON") :=
  ⟨C9_all_empty_rows_render_nil.1 none [[], []] ("PRESENT") ("POLYGON") (by simp),
   C9_all_empty_rows_render_nil.2 [[], []] [] ("PRESENT") 0 ("POLYGON") (by simp)⟩

theorem truncateMax_length (x : List Char) : (truncateMax x).length ≤ MAX_STRING_LEN := by
  unfold truncateMax
  by_cases hx : MAX_STRING_LEN < x.length
  · rw [if_pos hx]
    simp only [List.length_append, List.length_take, ellipsisChars, List.length_cons,
      List.length_nil, MAX_STRING_LEN] at hx ⊢
    omega
  · rw [if_neg hx]
    omega

/-- Claim C5: each cleaned attribute string is at most the fixed maximum
field length, over-long values being truncated with a trailing ellipsis
marker (V3); and the total length of a row's attribute strings is capped by
iteratively trimming the longest field (V2008 `get_values_areas`). -/
theorem C5_attribute_length_caps :
    (∀ (v : PyVal) (l : List Char), cleanChars v = some l → l.length ≤ MAX_STRING_LEN) ∧
    (∀ l : List Char, MAX_STRING_LEN < l.length →
      ∃ p, truncateMax l = p ++ ellipsisChars) ∧
    (∀ attrs : List (List Char), attrs.length ≤ 4 →
      V2008.totalLen (V2008.capAttrs attrs) ≤ 200) := by
  refine ⟨?_, ?_, ?_⟩
  · intro v l h
    cases v <;>
      · unfold cleanChars at h
        dsimp only at h
        split at h
        · rw [← Option.some.inj h]
          exact truncateMax_length _
        · cases h
  · intro l h
    unfold truncateMax
    rw [if_pos h]
    exact ⟨_, rfl⟩
  · intro attrs h
    exact V2008.capAttrs_le h

/-- Witness for C5 at concrete over-long inputs. -/
theorem C5_witness :
    (cleanChars (PyVal.str (String.mk (List.replicate 60 'x'))) =
        some (List.replicate 47 'x' ++ ellipsisChars) ∧
      (List.replicate 47 'x' ++ ellipsisChars).length ≤ MAX_STRING_LEN) ∧
    (∃ p, truncateMax (List.replicate 60 'x') = p ++ ellipsisChars) ∧
    V2008.totalLen (V2008.capAttrs [List.replicate 202 'a']) ≤ 200 :=
  ⟨⟨by decide, C5_attribute_length_caps.1 (PyVal.str (String.mk (List.replicate 60 'x'))) _
      (by decide)⟩,
   C5_attribute_length_caps.2.1 (List.replicate 60 'x') (by decide),
   C5_attribute_length_caps.2.2 [List.replicate 202 'a'] (by decide)⟩

/-- Claim C2: for a Presence-method pass, at every point during and after
the pass no bucket of the output dictionary contains two identical cleaned
attribute tuples; a joined record whose tuple already exists in its bucket
is not appended again. -/
theorem C2_presence_dedupe :
    (∀ (ids : List Int) (themes : List String) (θp : String) (locp : Loc)
      (gt method : String) (records : List JRecord) (n : Nat) (f : Int) (θ : String)
      (loc : Loc) (b : List Row),
      pyUpper method = "PRESENT" →
      lookupBucket (processRecords θp locp gt method (create_output_dict ids themes)
        (records.take n)).1 f θ loc = some b → b.Nodup) ∧
    (∀ (b : List Row) (fv : List String), (fv.map Cell.s : Row) ∈ b →
      presentStep b fv = b) := by
  constructor
  · intro ids themes θp locp gt method records n f θ loc b hm hb
    refine processRecords_nodup hm (records.take n) (create_output_dict ids themes)
      ?_ f θ loc b hb
    intro f' θ' loc' b' hb'
    rw [create_output_dict_bucket_empty hb']
    exact List.nodup_nil
  · intro b fv h
    exact presentStep_mem h

/-- Witness for C2: one record processed into a fresh dictionary. -/
theorem C2_witness :
    ([[Cell.s ("A")]] : List Row).Nodup ∧
      presentStep [[Cell.s ("A")]] [("A" : String)] = [[Cell.s ("A")]] :=
  ⟨C2_presence_dedupe.1 [1] [("T" : String)] ("T") Loc.in_polygon ("POLYGON") ("PRESENT")
      [⟨⟨0, 0⟩, 1, [PyVal.str ("A")]⟩] 1 1 ("T") Loc.in_polygon [[Cell.s ("A")]]
      (by decide) (by decide),
   C2_presence_dedupe.2 [[Cell.s ("A")]] [("A" : String)] (by decide)⟩

/-- Claim C6: a formatted cell contains a buffer section exactly when the
theme's buffer distance is positive (for distance ≤ 0 the cell is the
polygon section alone, independent of any buffer data), and an empty or
no-match polygon bucket renders "In polygon: Nil" with a space before
"Nil". -/
theorem C6_cell_buffer_section_iff :
    ∀ (lp lb : List Row) (method : String) (d : Int) (gt : String),
      (0 < d → ∀ s, results_to_string lp lb method d gt = some s →
        ∃ p q, s = p ++ (crlf ++ "In " ++ toString d ++ "m buffer:") ++ q ∧
          polySection lp method gt = some p) ∧
      (d ≤ 0 → results_to_string lp lb method d gt = polySection lp method gt) ∧
      ((∀ r ∈ lp, r = []) → polySection lp method gt = some ("In polygon: Nil")) := by
  intro lp lb method d gt
  refine ⟨?_, ?_, ?_⟩
  · intro hd s h
    exact results_to_string_buffer_decomp hd h
  · intro hd
    exact results_to_string_nobuffer hd
  · intro h
    exact polySection_allEmpty h

/-- Witness for C6 at concrete inputs with and without a buffer distance. -/
theorem C6_witness :
    (∃ p q, ("In polygon:\r\nA\r\nIn 5m buffer: Nil" : String) =
        p ++ (crlf ++ "In " ++ toString (5 : Int) ++ "m buffer:") ++ q ∧
        polySection [[Cell.s ("A")]] ("PRESENT") ("G") = some p) ∧
    results_to_string [[Cell.s ("A")]] [[Cell.s ("B")]] ("PRESENT") 0 ("G") =
      polySection [[Cell.s ("A")]] ("PRESENT") ("G") ∧
    polySection [] ("PRESENT") ("G") = some ("In polygon: Nil") :=
  ⟨(C6_cell_buffer_section_iff [[Cell.s ("A")]] [] ("PRESENT") 5 ("G")).1 (by decide)
      ("In polygon:\r\nA\r\nIn 5m buffer: Nil") (by decide),
   (C6_cell_buffer_section_iff [[Cell.s ("A")]] [[Cell.s ("B")]] ("PRESENT") 0 ("G")).2.1
      (by decide),
   (C6_cell_buffer_section_iff [] [] ("PRESENT") 0 ("G")).2.2 (by simp)⟩

/-- Claim C10: with zero input features the run does not raise: the CSV
step catches the `StopIteration` internally and logs it, the output CSV
file exists but carries neither header nor data rows, and the orchestrator
still logs normal completion. -/
theorem C10_zero_features (reftabRows : List ReftabRow) (g i : String)
    (de : String → String) (sp : String → Loc → Except String (List JRecord))
    (idf : String) :
    runTool reftabRows g i de [] sp idf =
      { csvFileCreated := true, csvRows := [], csvErrorLogged := true,
        completedLogged := true } := by
  unfold runTool
  dsimp only
  rw [show ∀ themes, create_output_dict ([] : List Int) themes = [] from fun _ => rfl,
    processAllLayers_keeps_empty]
  rfl



theorem sum_map_one {α : Type} (l : List α) : (l.map (fun _ => (1 : Int))).sum = l.length := by
  induction l with
  | nil => rfl
  | cons a rest ih =>
      simp [ih]
      omega

/-- Claim C1: for a Count-method pass over an initialised output
dictionary, the pass completes without error and, for every feature, the
sum of the trailing counters in its bucket equals the number of joined
records (already filtered by the definition query) routed to that bucket;
merging keys on the attribute tuple excluding the final counter, either
incrementing a matching row's counter by 1 or appending a new row with
counter 1. -/
theorem C1_count_sum :
    (∀ (ids : List Int) (themes : List String) (θ : String) (loc : Loc)
      (gt method : String) (records : List JRecord) (f : Int),
      pyUpper method = "COUNT" → θ ∈ themes →
      (∀ r ∈ records, (r : JRecord).fid ∈ ids) → f ∈ ids →
      (processRecords θ loc gt method (create_output_dict ids themes) records).2 = false ∧
      ∃ b, lookupBucket (processRecords θ loc gt method (create_output_dict ids themes)
          records).1 f θ loc = some b ∧
        sumCounts b = ((records.filter (fun r => r.fid == f)).length : Int)) ∧
    (∀ (fv : List String) (b : List Row), (∀ e ∈ b, List.dropLast e ≠ fv.map Cell.s) →
      countStep b fv = some (b ++ [fv.map Cell.s ++ [Cell.i 1]])) ∧
    (∀ (rest : List Row) (fv : List String) (n : Int),
      countStep ((fv.map Cell.s ++ [Cell.i n]) :: rest) fv =
        some ((fv.map Cell.s ++ [Cell.i (n + 1)]) :: rest)) := by
  refine ⟨?_, countStep_append, countStep_increment⟩
  intro ids themes θ loc gt method records f hm hθ hids hf
  have hrec : ∀ (d : OutputDict) (r : JRecord), recordStep θ loc gt method d r =
      updateBucket d r.fid θ loc (fun b => countStep b (cleanFields r.fields)) := by
    intro d r
    have hne : pyUpper method ≠ "PRESENT" := by rw [hm]; decide
    simp [recordStep, hne, hm]
  have hstep : ∀ (r : JRecord) (b : List Row), WFCount b →
      ∃ b', countStep b (cleanFields r.fields) = some b' ∧ WFCount b' ∧
        sumCounts b' = sumCounts b + (1 : Int) := by
    intro r b hwf
    exact countStep_total hwf _
  obtain ⟨hflag, hsum⟩ := processRecords_acc hrec hstep records (create_output_dict ids themes)
    (fun r hr => ⟨[], create_output_dict_lookup (hids r hr) hθ⟩)
    (fun f' b hb => by
      rw [create_output_dict_bucket_empty hb]
      intro r hr
      cases hr)
  refine ⟨hflag, ?_⟩
  obtain ⟨b', hb', hwf', hv'⟩ := hsum f [] (create_output_dict_lookup hf hθ)
  refine ⟨b', hb', ?_⟩
  rw [hv']
  rw [sum_map_one]
  simp [sumCounts]

/-- Witness for C1: two identical and one distinct record into one bucket. -/
theorem C1_witness :
    (processRecords ("T") Loc.in_polygon ("POLYGON") ("COUNT")
        (create_output_dict [1] [("T")])
        [⟨⟨0, 0⟩, 1, [PyVal.str ("Z")]⟩, ⟨⟨0, 0⟩, 1, [PyVal.str ("Z")]⟩,
          ⟨⟨0, 0⟩, 1, [PyVal.str ("W")]⟩]).2 = false ∧
    ∃ b, lookupBucket (processRecords ("T") Loc.in_polygon ("POLYGON") ("COUNT")
        (create_output_dict [1] [("T")])
        [⟨⟨0, 0⟩, 1, [PyVal.str ("Z")]⟩, ⟨⟨0, 0⟩, 1, [PyVal.str ("Z")]⟩,
          ⟨⟨0, 0⟩, 1, [PyVal.str ("W")]⟩]).1 1 ("T") Loc.in_polygon = some b ∧
      sumCounts b = (((([⟨⟨0, 0⟩, 1, [PyVal.str ("Z")]⟩, ⟨⟨0, 0⟩, 1, [PyVal.str ("Z")]⟩,
          ⟨⟨0, 0⟩, 1, [PyVal.str ("W")]⟩] : List JRecord).filter
            (fun r => r.fid == 1)).length) : Int) :=
  (C1_count_sum.1 [1] [("T")] ("T") Loc.in_polygon ("POLYGON") ("COUNT")
    [⟨⟨0, 0⟩, 1, [PyVal.str ("Z")]⟩, ⟨⟨0, 0⟩, 1, [PyVal.str ("Z")]⟩,
      ⟨⟨0, 0⟩, 1, [PyVal.str ("W")]⟩] 1 (by decide) (by decide) (by decide) (by decide))

/-- Claim C3: a Measure-method layer whose geometry is neither polygon nor
polyline makes the pass log an error and contribute nothing (the
dictionary is returned unchanged and the run continues); on polygon layers
each record contributes its geometry area / 10000 (hectares) and on line
layers its length / 1000 (kilometres), accumulated into the matching row's
trailing accumulator or appended as a new row. -/
theorem C3_measure_dispatch :
    (∀ (e : ReftabEntry) (loc : Loc) (records : List JRecord) (d : OutputDict),
      pyUpper e.method = "MEASURE" →
      e.geometry_type ≠ "POLYGON" → e.geometry_type ≠ "POLYLINE" → records ≠ [] →
      process_spatial_intersection e loc (.ok records) d = (d, true)) ∧
    (∀ (ids : List Int) (themes : List String) (θ : String) (loc : Loc) (method : String)
      (records : List JRecord) (f : Int),
      pyUpper method = "MEASURE" → θ ∈ themes →
      (∀ r ∈ records, (r : JRecord).fid ∈ ids) → f ∈ ids →
      ∃ b, lookupBucket (processRecords θ loc ("POLYGON") method
          (create_output_dict ids themes) records).1 f θ loc = some b ∧
        sumMeas b = ((records.filter (fun r => r.fid == f)).map
          (fun r => r.shape.area / 10000)).sum) ∧
    (∀ (ids : List Int) (themes : List String) (θ : String) (loc : Loc) (method : String)
      (records : List JRecord) (f : Int),
      pyUpper method = "MEASURE" → θ ∈ themes →
      (∀ r ∈ records, (r : JRecord).fid ∈ ids) → f ∈ ids →
      ∃ b, lookupBucket (processRecords θ loc ("POLYLINE") method
          (create_output_dict ids themes) records).1 f θ loc = some b ∧
        sumMeas b = ((records.filter (fun r => r.fid == f)).map
          (fun r => r.shape.length / 1000)).sum) := by
  refine ⟨?_, ?_, ?_⟩
  · intro e loc records d hm h1 h2 hne
    obtain ⟨r, rs, rfl⟩ := List.exists_cons_of_ne_nil hne
    have hp : pyUpper e.method ≠ "PRESENT" := by rw [hm]; decide
    have hc : pyUpper e.method ≠ "COUNT" := by rw [hm]; decide
    have hrs : recordStep e.theme_name loc e.geometry_type e.method d r = none := by
      simp [recordStep, hp, hc, hm, h1, h2]
    simp [process_spatial_intersection, processRecords, hrs]
  · intro ids themes θ loc method records f hm hθ hids hf
    have hrec : ∀ (d : OutputDict) (r : JRecord), recordStep θ loc ("POLYGON") method d r =
        updateBucket d r.fid θ loc
          (fun b => measureStep b (cleanFields r.fields) (r.shape.area / 10000)) := by
      intro d r
      have hp : pyUpper method ≠ "PRESENT" := by rw [hm]; decide
      have hc : pyUpper method ≠ "COUNT" := by rw [hm]; decide
      simp [recordStep, hp, hc, hm]
    have hstep : ∀ (r : JRecord) (b : List Row), WFMeas b →
        ∃ b', measureStep b (cleanFields r.fields) (r.shape.area / 10000) = some b' ∧
          WFMeas b' ∧ sumMeas b' = sumMeas b + r.shape.area / 10000 := by
      intro r b hwf
      exact measureStep_total hwf _ _
    obtain ⟨-, hsum⟩ := processRecords_acc hrec hstep records (create_output_dict ids themes)
      (fun r hr => ⟨[], create_output_dict_lookup (hids r hr) hθ⟩)
      (fun f' b hb => by
        rw [create_output_dict_bucket_empty hb]
        intro r hr
        cases hr)
    obtain ⟨b', hb', hwf', hv'⟩ := hsum f [] (create_output_dict_lookup hf hθ)
    refine ⟨b', hb', ?_⟩
    rw [hv']
    simp [sumMeas]
  · intro ids themes θ loc method records f hm hθ hids hf
    have hrec : ∀ (d : OutputDict) (r : JRecord), recordStep θ loc ("POLYLINE") method d r =
        updateBucket d r.fid θ loc
          (fun b => measureStep b (cleanFields r.fields) (r.shape.length / 1000)) := by
      intro d r
      have hp : pyUpper method ≠ "PRESENT" := by rw [hm]; decide
      have hc : pyUpper method ≠ "COUNT" := by rw [hm]; decide
      simp [recordStep, hp, hc, hm]
    have hstep : ∀ (r : JRecord) (b : List Row), WFMeas b →
        ∃ b', measureStep b (cleanFields r.fields) (r.shape.length / 1000) = some b' ∧
          WFMeas b' ∧ sumMeas b' = sumMeas b + r.shape.length / 1000 := by
      intro r b hwf
      exact measureStep_total hwf _ _
    obtain ⟨-, hsum⟩ := processRecords_acc hrec hstep records (create_output_dict ids themes)
      (fun r hr => ⟨[], create_output_dict_lookup (hids r hr) hθ⟩)
      (fun f' b hb => by
        rw [create_output_dict_bucket_empty hb]
        intro r hr
        cases hr)
    obtain ⟨b', hb', hwf', hv'⟩ := hsum f [] (create_output_dict_lookup hf hθ)
    refine ⟨b', hb', ?_⟩
    rw [hv']
    simp [sumMeas]

/-- Witness for C3: a point layer aborts with the dictionary unchanged; a
polygon record of area 20000 m² accumulates 2 hectares. -/
theorem C3_witness :
    process_spatial_intersection
      { theme_name := ("T"), cached_fc := ("c"), geometry_type := ("POINT"),
        method := ("MEASURE"), definition_query := none, buffer_distance := 0,
        repfld1 := ("f"), repfld2 := (""), repfld3 := (""), repfld4 := ("") }
      Loc.in_polygon (.ok [⟨⟨2, 3⟩, 1, [PyVal.str ("Z")]⟩])
      (create_output_dict [1] [("T")]) = (create_output_dict [1] [("T")], true) ∧
    ∃ b, lookupBucket (processRecords ("T") Loc.in_polygon ("POLYGON") ("MEASURE")
        (create_output_dict [1] [("T")]) [⟨⟨20000, 0⟩, 1, [PyVal.str ("Z")]⟩]).1
        1 ("T") Loc.in_polygon = some b ∧
      sumMeas b = ((([⟨⟨20000, 0⟩, 1, [PyVal.str ("Z")]⟩] : List JRecord).filter
        (fun r => r.fid == 1)).map (fun r => r.shape.area / 10000)).sum :=
  ⟨C3_measure_dispatch.1
      { theme_name := ("T"), cached_fc := ("c"), geometry_type := ("POINT"),
        method := ("MEASURE"), definition_query := none, buffer_distance := 0,
        repfld1 := ("f"), repfld2 := (""), repfld3 := (""), repfld4 := ("") }
      Loc.in_polygon [⟨⟨2, 3⟩, 1, [PyVal.str ("Z")]⟩] (create_output_dict [1] [("T")])
      (by decide) (by decide) (by decide) (by decide),
   C3_measure_dispatch.2.1 [1] [("T")] ("T") Loc.in_polygon ("MEASURE")
      [⟨⟨20000, 0⟩, 1, [PyVal.str ("Z")]⟩] 1 (by decide) (by decide) (by decide) (by decide)⟩



/-- Claim C7: a spatial/query error while intersecting one value layer for
one location variant is logged, that layer/location pair contributes
nothing (the dictionary is returned unchanged), the loop over layers
continues, and the affected polygon buckets of every feature stay empty,
so the affected cell section renders "In polygon: Nil". -/
theorem C7_layer_error_recovery (ids : List Int) (themes : List String)
    (pre post : List (String × ReftabEntry)) (fc : String) (e : ReftabEntry)
    (msg : String) (spatial : String → Loc → Except String (List JRecord))
    (hθ : e.theme_name ∈ themes)
    (hothers : ∀ p ∈ pre ++ post, (p : String × ReftabEntry).2.theme_name ≠ e.theme_name)
    (hsp : spatial fc .in_polygon = .error msg) :
    (∀ f ∈ ids, lookupBucket (processAllLayers (pre ++ (fc, e) :: post) spatial
        (create_output_dict ids themes)) f e.theme_name .in_polygon = some []) ∧
    (∀ d : OutputDict, process_spatial_intersection e .in_polygon (.error msg) d = (d, true)) ∧
    polySection [] e.method e.geometry_type = some ("In polygon: Nil") := by
  refine ⟨?_, fun d => rfl, polySection_allEmpty (by simp)⟩
  intro f hf
  have hsplit : processAllLayers (pre ++ (fc, e) :: post) spatial
      (create_output_dict ids themes) =
      processAllLayers post spatial
        ((process_intersections e (spatial fc .in_polygon) (spatial fc .in_buffer)
          (processAllLayers pre spatial (create_output_dict ids themes))).1) := by
    simp [processAllLayers, List.foldl_append]
  rw [hsplit,
    processAllLayers_frame post spatial _ f e.theme_name .in_polygon
      (fun q hq => hothers q (List.mem_append_right _ hq)),
    hsp, process_intersections_error_poly f e.theme_name,
    processAllLayers_frame pre spatial _ f e.theme_name .in_polygon
      (fun q hq => hothers q (List.mem_append_left _ hq))]
  exact create_output_dict_lookup hf hθ

/-- A concrete reference-table entry used by the C7 witness. -/
def c7Entry : ReftabEntry :=
  { theme_name := ("T"), cached_fc := ("c"), geometry_type := ("POLYGON"),
    method := ("COUNT"), definition_query := none, buffer_distance := 0,
    repfld1 := ("f"), repfld2 := (""), repfld3 := (""), repfld4 := ("") }

/-- Witness for C7: a single failing layer over one feature. -/
theorem C7_witness :
    (∀ f ∈ ([1] : List Int),
      lookupBucket (processAllLayers ([] ++ (("F"), c7Entry) :: [])
        (fun _ _ => Except.error ("boom")) (create_output_dict [1] [("T")]))
        f ("T") Loc.in_polygon = some []) ∧
    (∀ d : OutputDict,
      process_spatial_intersection c7Entry Loc.in_polygon (.error ("boom")) d = (d, true)) ∧
    polySection [] c7Entry.method c7Entry.geometry_type = some ("In polygon: Nil") :=
  C7_layer_error_recovery [1] [("T")] [] [] ("F") c7Entry ("boom")
    (fun _ _ => Except.error ("boom")) (by decide) (by simp) rfl


/-- Claim C8: when two enabled reference-table rows share an FC_NAME, the
configuration index (keyed by FC_NAME) retains only the last such row's
theme definition; with theme names unique across the other rows, the
earlier row's theme appears in no configuration entry, hence in no output
column. -/
theorem C8_fcname_overwrite (g i : String) (de : String → String)
    (pre mid post : List ReftabRow) (r1 r2 : ReftabRow)
    (h1 : pyUpper r1.requires_check = "Y") (h2 : pyUpper r2.requires_check = "Y")
    (hfc : r1.fc_name = r2.fc_name)
    (hpost : ∀ row ∈ post, pyUpper row.requires_check = "Y" → row.fc_name ≠ r2.fc_name) :
    (∃ e, alookup (load_values_fcs g i de initConfigState
        (pre ++ r1 :: (mid ++ r2 :: post))).1.reftab_dict r2.fc_name = some e ∧
      e.theme_name = r2.theme_name ∧ e.method = r2.method ∧
      e.buffer_distance = r2.buffer_distance ∧
      e.definition_query = cleanQuery r2.query) ∧
    ((∀ row ∈ pre ++ mid ++ r2 :: post, row.theme_name ≠ r1.theme_name) →
      r1.theme_name ∉ (load_values_fcs g i de initConfigState
        (pre ++ r1 :: (mid ++ r2 :: post))).1.reftab_dict.map
          (fun p => (p : String × ReftabEntry).2.theme_name)) := by
  have hinv0 : ConfigInv initConfigState := fun _ => rfl
  have e1 := @load_append g i de pre (r1 :: (mid ++ r2 :: post)) initConfigState hinv0
  obtain ⟨hinv1, -⟩ := @load_inv_total g i de pre initConfigState hinv0
  set st1 := (load_values_fcs g i de initConfigState pre).1 with hst1
  obtain ⟨st2, ln1, hstep1, hinv2, -⟩ := @loadStep_enabled g i de st1 r1 h1 hinv1
  have e2 : load_values_fcs g i de st1 (r1 :: (mid ++ r2 :: post)) =
      load_values_fcs g i de st2 (mid ++ r2 :: post) := by
    simp only [load_values_fcs, hstep1]
  have e3 := @load_append g i de mid (r2 :: post) st2 hinv2
  obtain ⟨hinv3, -⟩ := @load_inv_total g i de mid st2 hinv2
  set st3 := (load_values_fcs g i de st2 mid).1 with hst3
  obtain ⟨st4, ln2, hstep2, hinv4, hdict4⟩ := @loadStep_enabled g i de st3 r2 h2 hinv3
  have e4 : load_values_fcs g i de st3 (r2 :: post) =
      load_values_fcs g i de st4 post := by
    simp only [load_values_fcs, hstep2]
  have hfinal : load_values_fcs g i de initConfigState (pre ++ r1 :: (mid ++ r2 :: post)) =
      load_values_fcs g i de st4 post := by
    rw [e1, e2, e3, e4]
  have hlook : alookup (load_values_fcs g i de initConfigState
      (pre ++ r1 :: (mid ++ r2 :: post))).1.reftab_dict r2.fc_name =
      some { theme_name := r2.theme_name, cached_fc := ln2,
             geometry_type := pyUpper (de ln2), method := r2.method,
             definition_query := cleanQuery r2.query,
             buffer_distance := r2.buffer_distance,
             repfld1 := r2.repfld1, repfld2 := r2.repfld2, repfld3 := r2.repfld3,
             repfld4 := r2.repfld4 } := by
    rw [hfinal, @load_skip g i de r2.fc_name post st4 hinv4 hpost, hdict4,
      alookup_pyInsert_self]
  refine ⟨⟨_, hlook, rfl, rfl, rfl, rfl⟩, ?_⟩
  intro huniq hmem
  obtain ⟨p, hp, hpt⟩ := List.mem_map.mp hmem
  have hnd : (((load_values_fcs g i de initConfigState
      (pre ++ r1 :: (mid ++ r2 :: post))).1.reftab_dict.map Prod.fst).Nodup) :=
    @load_nodupKeys g i de _ initConfigState hinv0 (by simp [initConfigState])
  rcases @load_provenance g i de (pre ++ r1 :: (mid ++ r2 :: post)) initConfigState hinv0 p hp with
    hmem0 | ⟨row, hrow, -, hk, ht⟩
  · simp [initConfigState] at hmem0
  · have hrowt : row.theme_name = r1.theme_name := by rw [← ht, hpt]
    have hrow1 : row = r1 ∨ row ∈ pre ++ mid ++ r2 :: post := by
      simp only [List.mem_append, List.mem_cons] at hrow ⊢
      tauto
    rcases hrow1 with hrow1 | hrow1
    · have hkey : p.1 = r2.fc_name := by rw [hk, hrow1, hfc]
      have hal := alookup_of_mem_nodupKeys hnd hp
      rw [hkey, hlook] at hal
      have hthm : p.2.theme_name = r2.theme_name := by
        rw [← Option.some.inj hal]
      have hne : r2.theme_name ≠ r1.theme_name := huniq r2 (by simp)
      rw [hpt] at hthm
      exact hne hthm.symm
    · exact huniq row hrow1 hrowt

/-- A concrete earlier reference row for the C8 witness. -/
def c8Row1 : ReftabRow :=
  { theme_name := ("Theme A"), requires_check := ("Y"), default_ws := ("N"),
    location := ("loc1"), gdb_name := ("gdb"), fc_name := ("FC1"), query := none,
    method := ("PRESENT"), repfld1 := ("f1"), repfld2 := (""), repfld3 := (""),
    repfld4 := (""), buffer_distance := 0 }

/-- A concrete later reference row (same FC_NAME) for the C8 witness. -/
def c8Row2 : ReftabRow :=
  { theme_name := ("Theme B"), requires_check := ("Y"), default_ws := ("N"),
    location := ("loc2"), gdb_name := ("gdb"), fc_name := ("FC1"), query := none,
    method := ("COUNT"), repfld1 := ("f2"), repfld2 := (""), repfld3 := (""),
    repfld4 := (""), buffer_distance := 50 }

/-- Witness for C8: two enabled rows with the same FC_NAME. -/
theorem C8_witness :
    (∃ e, alookup (load_values_fcs ("g") ("1") (fun _ => "Polygon") initConfigState
        ([] ++ c8Row1 :: ([] ++ c8Row2 :: []))).1.reftab_dict c8Row2.fc_name = some e ∧
      e.theme_name = c8Row2.theme_name ∧ e.method = c8Row2.method ∧
      e.buffer_distance = c8Row2.buffer_distance ∧
      e.definition_query = cleanQuery c8Row2.query) ∧
    c8Row1.theme_name ∉ (load_values_fcs ("g") ("1") (fun _ => "Polygon") initConfigState
        ([] ++ c8Row1 :: ([] ++ c8Row2 :: []))).1.reftab_dict.map
          (fun p => (p : String × ReftabEntry).2.theme_name) := by
  have h := C8_fcname_overwrite ("g") ("1") (fun _ => "Polygon") [] [] [] c8Row1 c8Row2
    (by decide) (by decide) (by decide) (by simp)
  exact ⟨h.1, h.2 (by decide)⟩



/-- Counterexample to claim C4: with input feature ids [2, 1] the CSV data
rows keep the input first-occurrence order [2, 1] — V3 never sorts them —
so the data rows are not in ascending order of feature id. -/
theorem C4_counterexample :
    (runTool [] ("g") ("1") (fun _ => "POLYGON") [2, 1]
      (fun _ _ => Except.ok []) ("ID")).csvRows = [[("ID")], [("2")], [("1")]] ∧
    ¬ ((2 : Int) ≤ 1) := by
  constructor
  · decide
  · decide

/-- Claim C4 (amended): the output CSV contains exactly one data row per
distinct feature id — duplicate ids collapse onto their first occurrence —
and the data rows appear in input first-occurrence (dictionary insertion)
order, not in ascending sorted order. -/
theorem C4_amended (reftabRows : List ReftabRow) (g i : String) (de : String → String)
    (ids : List Int) (sp : String → Loc → Except String (List JRecord)) (idf : String)
    (hne : ids ≠ []) :
    (runTool reftabRows g i de ids sp idf).csvRows.map (fun r => r.headD emptyStr) =
      idf :: (firstOccurKeys ids).map toString ∧
    (runTool reftabRows g i de ids sp idf).csvRows.length =
      1 + (firstOccurKeys ids).length ∧
    (∀ j : Int, j ∈ firstOccurKeys ids ↔ j ∈ ids) ∧ (firstOccurKeys ids).Nodup := by
  set entries := (load_values_fcs g i de initConfigState reftabRows).1.reftab_dict
    with hentries
  set themes0 := entries.map (fun p => (p : String × ReftabEntry).2.theme_name)
    with hthemes0
  set d0 := create_output_dict ids themes0 with hd0
  set d1 := processAllLayers entries sp d0 with hd1
  have hstr : StructLe d1 d0 := processAllLayers_structLe entries sp d0
  have hk1 : d1.map Prod.fst = firstOccurKeys ids := by
    rw [hstr.1, hd0]
    exact create_output_dict_keys ids themes0
  have hne1 : d1 ≠ [] := by
    intro h
    rw [h] at hk1
    exact hne (firstOccurKeys_eq_nil.mp hk1.symm)
  obtain ⟨hd, tl, hcons⟩ := List.exists_cons_of_ne_nil hne1
  obtain ⟨f0, fd0⟩ := hd
  have hinner : ∀ p ∈ d1, (p : Int × FeatureData).2.map Prod.fst = firstOccurKeys themes0 := by
    intro p hp
    obtain ⟨q, hq, -, hkeq⟩ := hstr.2 p hp
    rw [hkeq, create_output_dict_values ids themes0 q hq, initFeatureData_keys]
  have hfd0 : fd0.map Prod.fst = firstOccurKeys themes0 :=
    hinner (f0, fd0) (hcons ▸ List.mem_cons_self _ _)
  have hdtc : data_to_csv d1 entries idf =
      csvLoop entries (fd0.map Prod.fst) d1 none [idf :: fd0.map Prod.fst] := by
    rw [hcons]
    rfl
  have hmatch : ∀ θ ∈ fd0.map Prod.fst,
      ∃ p ∈ entries, (p : String × ReftabEntry).2.theme_name = θ := by
    intro θ hθ
    rw [hfd0] at hθ
    have hmem : θ ∈ themes0 := mem_firstOccurKeys.mp hθ
    rw [hthemes0] at hmem
    obtain ⟨p, hp, hpθ⟩ := List.mem_map.mp hmem
    exact ⟨p, hp, hpθ⟩
  have hkeysall : ∀ p ∈ d1, ∀ θ ∈ fd0.map Prod.fst,
      θ ∈ (p : Int × FeatureData).2.map Prod.fst := by
    intro p hp θ hθ
    rw [hinner p hp, ← hfd0]
    exact hθ
  obtain ⟨hflag, rows, hrows, hheads⟩ :=
    csvLoop_rows hmatch d1 none [idf :: fd0.map Prod.fst] hkeysall
  have hcsv : (runTool reftabRows g i de ids sp idf).csvRows =
      (data_to_csv d1 entries idf).1 := rfl
  have hcsv2 : (runTool reftabRows g i de ids sp idf).csvRows =
      (idf :: fd0.map Prod.fst) :: rows := by
    rw [hcsv, hdtc, hrows]
    rfl
  have hlenrows : rows.length = d1.length := by
    have := congrArg List.length hheads
    simpa using this
  refine ⟨?_, ?_, fun j => mem_firstOccurKeys, nodup_firstOccurKeys⟩
  · rw [hcsv2, List.map_cons, hheads]
    have : d1.map (fun p => toString (p : Int × FeatureData).1) =
        (d1.map Prod.fst).map toString := by
      rw [List.map_map]
      rfl
    rw [this, hk1]
    rfl
  · rw [hcsv2, List.length_cons, hlenrows]
    have : d1.length = (d1.map Prod.fst).length := by simp
    rw [this, hk1]
    omega

/-- Witness for the amended C4 at a concrete duplicated, unsorted id list. -/
theorem C4_witness :
    (runTool [] ("g") ("1") (fun _ => "POLYGON") [2, 1, 2]
        (fun _ _ => Except.ok []) ("ID")).csvRows.map (fun r => r.headD emptyStr) =
      ("ID") :: (firstOccurKeys [2, 1, 2]).map toString ∧
    (runTool [] ("g") ("1") (fun _ => "POLYGON") [2, 1, 2]
        (fun _ _ => Except.ok []) ("ID")).csvRows.length =
      1 + (firstOccurKeys ([2, 1, 2] : List Int)).length ∧
    (∀ j : Int, j ∈ firstOccurKeys ([2, 1, 2] : List Int) ↔ j ∈ ([2, 1, 2] : List Int)) ∧
    (firstOccurKeys ([2, 1, 2] : List Int)).Nodup :=
  C4_amended [] ("g") ("1") (fun _ => "POLYGON") [2, 1, 2]
    (fun _ _ => Except.ok []) ("ID") (by decide)


end Hume
